import Mathlib

/-!
Verification of the core data/ML pipeline of the Aadhaar enrolment analytics
repository: a shallow embedding, in Lean 4, of the Data Cleaner
(src/data_pipeline/data_cleaner.py), the Feature Aggregator
(src/data_pipeline/feature_engineer.py), the Anomaly Detector's confidence
bucketing (src/ml_pipeline/anomaly_detector.py), the Risk Scorer
(src/ml_pipeline/risk_scorer.py) and the Schema Normalizer
(src/data_pipeline/universal_processor.py), together with theorems settling
the stated behavioural properties.

Numeric cells are modelled as rationals (ℚ): the Python code computes with
IEEE floats, but every property below is arithmetic-shape-based (filters,
clips, weighted sums, threshold comparisons), not rounding-based, and the
concrete evaluations stay inside exactly representable values.  Missing
values (NaN / None) are modelled with Option.  Square roots (pandas
Series.std) are irrational in general; the embedding is parametric in the
square-root function used for a standard deviation VALUE, while every
std-related BRANCH taken by the code (std equal to zero, std positive,
too-few-rows NaN) is expressed exactly through the rational variance, so no
theorem below depends on the values of the square-root parameter.
-/

/-! ## Shared list/statistics helpers (pandas mean, sample variance, min/max) -/

/-- Mean of a list of rationals, `Series.mean` (callers ensure nonempty). -/
def meanQ (l : List ℚ) : ℚ := l.sum / (l.length : ℚ)

/-- Sum of squared deviations from the mean, the numerator shared by
`Series.std` (sample) and `np.std` (population). -/
def sqDevSum (l : List ℚ) : ℚ := (l.map (fun x => (x - meanQ l) ^ 2)).sum

/-- Sample variance with `ddof = 1` as in `pandas.Series.std` squared;
meaningful only when the list has at least two elements (pandas yields NaN
otherwise, which callers branch on separately). -/
def sampleVar (l : List ℚ) : ℚ := sqDevSum l / ((l.length : ℚ) - 1)

/-- Decidable transcription of the test `series.std() > 0` of pandas: NaN
(fewer than two values) compares false, and the positive test on the
irrational std is equivalent to positivity of the rational variance. -/
def stdPosB (l : List ℚ) : Bool := decide (2 ≤ l.length) && decide (0 < sampleVar l)

/-- Minimum of a list, `np.min` (callers ensure nonempty). -/
def listMin (l : List ℚ) : ℚ := l.foldl min (l.headD 0)

/-- Maximum of a list, `np.max` (callers ensure nonempty). -/
def listMax (l : List ℚ) : ℚ := l.foldl max (l.headD 0)

theorem foldl_min_le_init (l : List ℚ) (a : ℚ) : l.foldl min a ≤ a := by
  induction l generalizing a with
  | nil => simp
  | cons x t ih => exact le_trans (ih (min a x)) (min_le_left a x)

theorem foldl_min_le_mem (l : List ℚ) (a x : ℚ) (hx : x ∈ l) : l.foldl min a ≤ x := by
  induction l generalizing a with
  | nil => cases hx
  | cons y t ih =>
      rcases List.mem_cons.mp hx with h | h
      · subst h
        exact le_trans (foldl_min_le_init t (min a x)) (min_le_right a x)
      · exact ih (min a y) h

theorem le_foldl_max_init (l : List ℚ) (a : ℚ) : a ≤ l.foldl max a := by
  induction l generalizing a with
  | nil => simp
  | cons x t ih => exact le_trans (le_max_left a x) (ih (max a x))

theorem le_foldl_max_mem (l : List ℚ) (a x : ℚ) (hx : x ∈ l) : x ≤ l.foldl max a := by
  induction l generalizing a with
  | nil => cases hx
  | cons y t ih =>
      rcases List.mem_cons.mp hx with h | h
      · subst h
        exact le_trans (le_max_right a x) (le_foldl_max_init t (max a x))
      · exact ih (max a y) h

theorem listMin_le_mem (l : List ℚ) (x : ℚ) (hx : x ∈ l) : listMin l ≤ x :=
  foldl_min_le_mem l _ x hx

theorem le_listMax_mem (l : List ℚ) (x : ℚ) (hx : x ∈ l) : x ≤ listMax l :=
  le_foldl_max_mem l _ x hx

theorem sum_eq_length_mul (l : List ℚ) (c : ℚ) (h : ∀ x ∈ l, x = c) :
    l.sum = (l.length : ℚ) * c := by
  induction l with
  | nil => simp
  | cons x t ih =>
      have hx : x = c := h x (List.mem_cons_self x t)
      have ht : t.sum = (t.length : ℚ) * c := ih (fun y hy => h y (List.mem_cons_of_mem x hy))
      simp [hx, ht]
      ring

theorem meanQ_const (l : List ℚ) (c : ℚ) (hne : l ≠ []) (h : ∀ x ∈ l, x = c) :
    meanQ l = c := by
  have hlen : (l.length : ℚ) ≠ 0 := by
    simpa using List.length_pos.mpr hne |>.ne'
  rw [meanQ, sum_eq_length_mul l c h, mul_comm, mul_div_assoc, div_self hlen, mul_one]

theorem sum_nonneg_eq_zero_iff (l : List ℚ) (h : ∀ x ∈ l, 0 ≤ x) :
    l.sum = 0 ↔ ∀ x ∈ l, x = 0 := by
  induction l with
  | nil => simp
  | cons x t ih =>
      have hx : 0 ≤ x := h x (List.mem_cons_self x t)
      have ht : ∀ y ∈ t, 0 ≤ y := fun y hy => h y (List.mem_cons_of_mem x hy)
      have hts : 0 ≤ t.sum := List.sum_nonneg ht
      constructor
      · intro h0
        have hsum : x + t.sum = 0 := by simpa using h0
        have hx0 : x = 0 := by linarith
        have hts0 : t.sum = 0 := by linarith
        intro y hy
        rcases List.mem_cons.mp hy with rfl | hy
        · exact hx0
        · exact (ih ht).mp hts0 y hy
      · intro hall
        have hx0 : x = 0 := hall x (List.mem_cons_self x t)
        have : t.sum = 0 := (ih ht).mpr (fun y hy => hall y (List.mem_cons_of_mem x hy))
        simp [hx0, this]

theorem sqDevSum_eq_zero_iff (l : List ℚ) :
    sqDevSum l = 0 ↔ ∀ x ∈ l, x = meanQ l := by
  rw [sqDevSum, sum_nonneg_eq_zero_iff]
  · constructor
    · intro h x hx
      have := h ((x - meanQ l) ^ 2) (List.mem_map_of_mem _ hx)
      have hsub : x - meanQ l = 0 := by
        exact pow_eq_zero_iff (n := 2) (by norm_num) |>.mp this
      linarith
    · intro h y hy
      rcases List.mem_map.mp hy with ⟨x, hx, rfl⟩
      rw [h x hx]
      ring
  · intro y hy
    rcases List.mem_map.mp hy with ⟨x, _, rfl⟩
    positivity

theorem sqDevSum_eq_zero_of_const (l : List ℚ) (h : ∀ x ∈ l, ∀ y ∈ l, x = y) :
    sqDevSum l = 0 := by
  rcases l with _ | ⟨a, t⟩
  · simp [sqDevSum, meanQ]
  · have hconst : ∀ x ∈ a :: t, x = a := fun x hx => h x hx a (List.mem_cons_self a t)
    have : meanQ (a :: t) = a := meanQ_const _ a (by simp) hconst
    apply (sqDevSum_eq_zero_iff _).mpr
    intro x hx
    rw [this, hconst x hx]

theorem getD_map_of_lt {α β : Type} (f : α → β) (l : List α) (i : ℕ) (h : i < l.length)
    (d : β) (d2 : α) : (l.map f).getD i d = f (l.getD i d2) := by
  induction l generalizing i with
  | nil => simp at h
  | cons x t ih =>
      cases i with
      | zero => simp
      | succ n =>
          simp only [List.map_cons, List.getD_cons_succ]
          exact ih n (by simpa using Nat.succ_lt_succ_iff.mp h)

theorem map_eq_self_of {α : Type} (f : α → α) (l : List α) (h : ∀ x ∈ l, f x = x) :
    l.map f = l := by
  induction l with
  | nil => rfl
  | cons x t ih =>
      rw [List.map_cons, h x (List.mem_cons_self x t),
        ih (fun y hy => h y (List.mem_cons_of_mem x hy))]

/-- Lexicographic comparison of character-code lists (string sort order). -/
def natLexLeB : List ℕ → List ℕ → Bool
  | [], _ => true
  | _ :: _, [] => false
  | a :: as, b :: bs => if a < b then true else if b < a then false else natLexLeB as bs

/-- Character codes of a string. -/
def strKey (s : String) : List ℕ := s.toList.map Char.toNat

/-- String order used by pandas sorting (lexicographic on character codes). -/
def strLeB (a b : String) : Bool := natLexLeB (strKey a) (strKey b)

/-! ## Anomaly Detector: confidence bucketing
(`AadhaarAnomalyDetector._calculate_confidence`) -/

namespace Detector

/-- Confidence bucket labels, ordered LOW < MEDIUM < HIGH < VERY_HIGH. -/
inductive Bucket
  | LOW
  | MEDIUM
  | HIGH
  | VERY_HIGH
deriving DecidableEq

/-- Numeric order of the buckets. -/
def Bucket.rank : Bucket → ℕ
  | .LOW => 0
  | .MEDIUM => 1
  | .HIGH => 2
  | .VERY_HIGH => 3

/-- A cell of the `anomaly_confidence` column: the code stores either the
float 0 (degenerate batch) or a bucket label string. -/
inductive Confidence
  | num (q : ℚ)
  | bucket (b : Bucket)
deriving DecidableEq

/-- Threshold banding of a min-max normalized score:
`>0.8 → VERY_HIGH, >0.6 → HIGH, >0.4 → MEDIUM, else LOW`. -/
def bucketOf (x : ℚ) : Bucket :=
  if 4/5 < x then .VERY_HIGH
  else if 3/5 < x then .HIGH
  else if 2/5 < x then .MEDIUM
  else .LOW

/-- Embedding of `_calculate_confidence(scores)`: when the batch is empty or
`np.std(scores) == 0` (equivalently, the rational sum of squared deviations
is 0, since std is the square root of that sum over n) every row gets the
number 0 (`np.zeros_like`); otherwise each score is min-max normalized
within the batch and banded by `bucketOf`. -/
def calcConfidence (scores : List ℚ) : List Confidence :=
  if scores.length = 0 ∨ sqDevSum scores = 0 then
    scores.map (fun _ => Confidence.num 0)
  else
    scores.map (fun s =>
      Confidence.bucket (bucketOf ((s - listMin scores) / (listMax scores - listMin scores))))

theorem bucketOf_rank_mono (x y : ℚ) (h : x ≤ y) : (bucketOf x).rank ≤ (bucketOf y).rank := by
  unfold bucketOf
  split_ifs <;> simp [Bucket.rank] <;> linarith

theorem min_lt_max_of_two_ne (l : List ℚ) (x y : ℚ) (hx : x ∈ l) (hy : y ∈ l) (hne : x ≠ y) :
    listMin l < listMax l := by
  rcases lt_or_gt_of_ne hne with h | h
  · exact lt_of_le_of_lt (listMin_le_mem l x hx) (lt_of_lt_of_le h (le_listMax_mem l y hy))
  · exact lt_of_le_of_lt (listMin_le_mem l y hy) (lt_of_lt_of_le h (le_listMax_mem l x hx))

theorem exists_ne_of_sqDevSum_ne_zero (l : List ℚ) (h : sqDevSum l ≠ 0) :
    ∃ x ∈ l, ∃ y ∈ l, x ≠ y := by
  by_contra hc
  push_neg at hc
  exact h (sqDevSum_eq_zero_of_const l hc)

/-- C6: within one Anomaly Detector batch, a strictly higher `anomaly_score`
receives a confidence bucket of greater or equal rank under
LOW ≤ MEDIUM ≤ HIGH ≤ VERY_HIGH, where buckets come from min-max
normalization of the score within the batch followed by the fixed
thresholds (>0.8 VERY_HIGH, >0.6 HIGH, >0.4 MEDIUM, else LOW). -/
theorem confidence_monotone (scores : List ℚ) (i j : ℕ)
    (hi : i < scores.length) (hj : j < scores.length)
    (hlt : scores.getD j 0 < scores.getD i 0) (b₁ b₂ : Bucket)
    (h₁ : (calcConfidence scores).getD i (Confidence.num 0) = Confidence.bucket b₁)
    (h₂ : (calcConfidence scores).getD j (Confidence.num 0) = Confidence.bucket b₂) :
    b₂.rank ≤ b₁.rank := by
  unfold calcConfidence at h₁ h₂
  by_cases hc : scores.length = 0 ∨ sqDevSum scores = 0
  · rw [if_pos hc] at h₁
    rw [getD_map_of_lt _ _ i hi _ 0] at h₁
    cases h₁
  · rw [if_neg hc] at h₁ h₂
    rw [getD_map_of_lt _ _ i hi _ 0] at h₁
    rw [getD_map_of_lt _ _ j hj _ 0] at h₂
    have hb₁ : bucketOf ((scores.getD i 0 - listMin scores) /
        (listMax scores - listMin scores)) = b₁ := by
      exact Confidence.bucket.inj h₁
    have hb₂ : bucketOf ((scores.getD j 0 - listMin scores) /
        (listMax scores - listMin scores)) = b₂ := by
      exact Confidence.bucket.inj h₂
    push_neg at hc
    obtain ⟨x, hx, y, hy, hxy⟩ := exists_ne_of_sqDevSum_ne_zero scores hc.2
    have hmm : 0 < listMax scores - listMin scores := by
      have := min_lt_max_of_two_ne scores x y hx hy hxy
      linarith
    have hmono : (scores.getD j 0 - listMin scores) / (listMax scores - listMin scores) ≤
        (scores.getD i 0 - listMin scores) / (listMax scores - listMin scores) := by
      apply div_le_div_of_nonneg_right ?_ hmm.le
      linarith
    rw [← hb₁, ← hb₂]
    exact bucketOf_rank_mono _ _ hmono

/-- Witness for C6 at the concrete batch [0, 1]: the higher score lands in
VERY_HIGH, the lower in LOW, and the theorem yields the rank inequality. -/
theorem confidence_monotone_witness :
    (calcConfidence [0, 1]).getD 1 (Confidence.num 0) = Confidence.bucket Bucket.VERY_HIGH ∧
    (calcConfidence [0, 1]).getD 0 (Confidence.num 0) = Confidence.bucket Bucket.LOW ∧
    Bucket.rank Bucket.LOW ≤ Bucket.rank Bucket.VERY_HIGH := by
  have h₁ : (calcConfidence [0, 1]).getD 1 (Confidence.num 0) =
      Confidence.bucket Bucket.VERY_HIGH := by
    norm_num [calcConfidence, sqDevSum, meanQ, listMin, listMax, bucketOf]
  have h₂ : (calcConfidence [0, 1]).getD 0 (Confidence.num 0) =
      Confidence.bucket Bucket.LOW := by
    norm_num [calcConfidence, sqDevSum, meanQ, listMin, listMax, bucketOf]
  exact ⟨h₁, h₂,
    confidence_monotone [0, 1] 1 0 (by norm_num) (by norm_num) (by norm_num) _ _ h₁ h₂⟩

/-- C10 (implicit): on a non-empty batch where every row has the same raw
anomaly score (standard deviation 0), `_calculate_confidence` stores the
number 0 in every row rather than a bucket label; and whenever the batch has
two distinct scores, every row receives one of the four bucket labels. -/
theorem confidence_degenerate_is_numeric :
    (∀ scores : List ℚ, scores ≠ [] → (∀ x ∈ scores, ∀ y ∈ scores, x = y) →
      calcConfidence scores = scores.map (fun _ => Confidence.num 0)) ∧
    (∀ scores : List ℚ, ∀ x ∈ scores, ∀ y ∈ scores, x ≠ y →
      ∀ c ∈ calcConfidence scores, ∃ b, c = Confidence.bucket b) := by
  constructor
  · intro scores _ hconst
    unfold calcConfidence
    rw [if_pos (Or.inr (sqDevSum_eq_zero_of_const scores hconst))]
  · intro scores x hx y hy hxy c hc
    unfold calcConfidence at hc
    have hcond : ¬(scores.length = 0 ∨ sqDevSum scores = 0) := by
      push_neg
      refine ⟨(List.length_pos.mpr (List.ne_nil_of_mem hx)).ne', ?_⟩
      intro h0
      have hall := (sqDevSum_eq_zero_iff scores).mp h0
      exact hxy ((hall x hx).trans (hall y hy).symm)
    rw [if_neg hcond] at hc
    rcases List.mem_map.mp hc with ⟨s, _, rfl⟩
    exact ⟨_, rfl⟩

/-- Witness for C10: the constant batch [3, 3] yields the number 0 in both
rows; the batch [0, 1] with two distinct scores yields only bucket labels. -/
theorem confidence_degenerate_is_numeric_witness :
    calcConfidence [3, 3] = [Confidence.num 0, Confidence.num 0] ∧
    (∀ c ∈ calcConfidence [0, 1], ∃ b, c = Confidence.bucket b) := by
  constructor
  · have h := confidence_degenerate_is_numeric.1 [3, 3] (by simp)
      (by intro x hx y hy; simp at hx hy; rw [hx, hy])
    simpa using h
  · exact fun c hc => confidence_degenerate_is_numeric.2 [0, 1] 0 (by simp) 1 (by simp)
      (by norm_num) c hc

end Detector

/-! ## Data Cleaner (`AadhaarDataCleaner.clean`, six stages) -/

namespace Cleaner

/-- Calendar date (year, month, day). -/
structure Date where
  y : ℕ
  m : ℕ
  d : ℕ
deriving DecidableEq

/-- Lexicographic order on calendar dates, as pandas Timestamp comparison. -/
def dateLeB (a b : Date) : Bool :=
  decide (a.y < b.y) ||
    (decide (a.y = b.y) &&
      (decide (a.m < b.m) || (decide (a.m = b.m) && decide (a.d ≤ b.d))))

/-- A cell of the `date` column: null (NaN/NaT/None), a value
`pd.to_datetime` cannot parse, or a value it parses to a calendar date.
String-format parsing itself is not re-implemented; what the cleaner
observes is only the parseable/unparseable/null trichotomy. -/
inductive DCell
  | null
  | unparseable (s : String)
  | valid (dt : Date)
deriving DecidableEq

/-- One cell under `pd.to_datetime(col, errors="coerce")`: parseable values
become dates, everything else becomes NaT (null). -/
def coerceDate : DCell → DCell
  | .valid dt => .valid dt
  | _ => .null

def DCell.isNull : DCell → Bool
  | .null => true
  | _ => false

/-- One record in the canonical column set of the cleaner
(date, state, district, pincode, enrolment_count, update_count, four age
buckets).  `none` models a NaN cell. -/
structure Row where
  date : DCell
  state : Option String
  district : Option String
  pincode : Option String
  enrol : Option ℚ
  upd : Option ℚ
  age0 : Option ℚ
  age19 : Option ℚ
  age41 : Option ℚ
  age60 : Option ℚ
deriving DecidableEq

/-- Which of the canonical columns exist in the DataFrame (the code guards
every stage with `if col in df.columns`). -/
structure Cols where
  date : Bool
  state : Bool
  district : Bool
  pincode : Bool
  enrol : Bool
  upd : Bool
  age0 : Bool
  age19 : Bool
  age41 : Bool
  age60 : Bool
deriving DecidableEq

/-- Median of a list as `Series.median`: middle of the sorted values, or the
average of the two middles (callers ensure nonempty). -/
def medianQ (l : List ℚ) : ℚ :=
  let s := List.insertionSort (· ≤ ·) l
  if l.length % 2 = 1 then s.getD (l.length / 2) 0
  else (s.getD (l.length / 2 - 1) 0 + s.getD (l.length / 2) 0) / 2

/-- First element of `Series.mode()`: the smallest among the most frequent
values (pandas returns the modes sorted ascending). -/
def modeStr (l : List String) : String :=
  let cands := List.insertionSort (fun a b => strLeB a b) l.dedup
  cands.foldl (fun best c => if l.count best < l.count c then c else best)
    (cands.headD "Unknown")

/-- Median imputation of one numeric column (`fillna(median)` guarded by
`missing_count > 0`); an all-null column has a NaN median and filling with
NaN leaves the column unchanged. -/
def fillNumericCol (get : Row → Option ℚ) (set : Row → ℚ → Row) (rows : List Row) :
    List Row :=
  if rows.any (fun r => (get r).isNone) then
    if (rows.filterMap get).isEmpty then rows
    else rows.map (fun r => match get r with
      | some _ => r
      | none => set r (medianQ (rows.filterMap get)))
  else rows

/-- Mode imputation of one categorical column, falling back to the literal
"Unknown" when the mode is empty (all-null column). -/
def fillCatCol (get : Row → Option String) (set : Row → String → Row) (rows : List Row) :
    List Row :=
  if rows.any (fun r => (get r).isNone) then
    if (rows.filterMap get).isEmpty then
      rows.map (fun r => match get r with
        | some _ => r
        | none => set r "Unknown")
    else
      rows.map (fun r => match get r with
        | some _ => r
        | none => set r (modeStr (rows.filterMap get)))
  else rows

/-- Apply a per-column transformation only when the column is present
(`if col in df.columns`). -/
def colStep (b : Bool) (f : List Row → List Row) (rows : List Row) : List Row :=
  if b then f rows else rows

/-- Number of columns present (the denominator of the per-row missing
fraction; `source_file` is the only excluded column and is not modelled). -/
def presentCount (c : Cols) : ℕ :=
  (if c.date then 1 else 0) + (if c.state then 1 else 0) + (if c.district then 1 else 0) +
  (if c.pincode then 1 else 0) + (if c.enrol then 1 else 0) + (if c.upd then 1 else 0) +
  (if c.age0 then 1 else 0) + (if c.age19 then 1 else 0) + (if c.age41 then 1 else 0) +
  (if c.age60 then 1 else 0)

/-- Number of null cells of a row among the present columns. -/
def nullCount (c : Cols) (r : Row) : ℕ :=
  (if c.date && r.date.isNull then 1 else 0) +
  (if c.state && r.state.isNone then 1 else 0) +
  (if c.district && r.district.isNone then 1 else 0) +
  (if c.pincode && r.pincode.isNone then 1 else 0) +
  (if c.enrol && r.enrol.isNone then 1 else 0) +
  (if c.upd && r.upd.isNone then 1 else 0) +
  (if c.age0 && r.age0.isNone then 1 else 0) +
  (if c.age19 && r.age19.isNone then 1 else 0) +
  (if c.age41 && r.age41.isNone then 1 else 0) +
  (if c.age60 && r.age60.isNone then 1 else 0)

/-- Stage 2a: rows with a null `date` are dropped outright. -/
def dropNullDates (c : Cols) (rows : List Row) : List Row :=
  if c.date then rows.filter (fun r => !r.date.isNull) else rows

/-- Stage 2b: median imputation of each numeric column present, then mode
imputation of each categorical column present, in column order
(enrolment, update, the four age buckets, then state, district, pincode). -/
def imputeAll (c : Cols) (rows : List Row) : List Row :=
  colStep c.pincode (fillCatCol (fun r => r.pincode) (fun r v => { r with pincode := some v }))
    (colStep c.district (fillCatCol (fun r => r.district) (fun r v => { r with district := some v }))
      (colStep c.state (fillCatCol (fun r => r.state) (fun r v => { r with state := some v }))
        (colStep c.age60 (fillNumericCol (fun r => r.age60) (fun r v => { r with age60 := some v }))
          (colStep c.age41 (fillNumericCol (fun r => r.age41) (fun r v => { r with age41 := some v }))
            (colStep c.age19 (fillNumericCol (fun r => r.age19) (fun r v => { r with age19 := some v }))
              (colStep c.age0 (fillNumericCol (fun r => r.age0) (fun r v => { r with age0 := some v }))
                (colStep c.upd (fillNumericCol (fun r => r.upd) (fun r v => { r with upd := some v }))
                  (colStep c.enrol (fillNumericCol (fun r => r.enrol) (fun r v => { r with enrol := some v }))
                    rows))))))))

/-- Stage 2c: drop rows whose missing fraction across present columns is at
least 0.5 (`isna().mean(axis=1) < threshold` keeps); with zero columns the
mean is NaN, the comparison is false and every row is dropped, which the
integer inequality `2·nulls < present` reproduces. -/
def dropSparseRows (c : Cols) (rows : List Row) : List Row :=
  rows.filter (fun r => nullCount c r * 2 < presentCount c)

/-- Stage 2, `_handle_missing_values`. -/
def handleMissingValues (c : Cols) (rows : List Row) : List Row :=
  dropSparseRows c (imputeAll c (dropNullDates c rows))

/-- Stage 3, `_clean_dates`: coerce to datetime, drop unparseable/null, and
keep the window from 2009-01-01 (program epoch) through `now`. -/
def cleanDates (c : Cols) (now : Date) (rows : List Row) : List Row :=
  if c.date then
    (((rows.map (fun r => { r with date := coerceDate r.date })).filter
        (fun r => !r.date.isNull)).filter
      (fun r => match r.date with
        | .valid dt => dateLeB ⟨2009, 1, 1⟩ dt
        | _ => false)).filter
      (fun r => match r.date with
        | .valid dt => dateLeB dt now
        | _ => false)
  else rows

/-- Python `str.title()`: an alphabetic character is uppercased when the
previous character is not alphabetic, lowercased otherwise. -/
def titleAux : List Char → Bool → List Char
  | [], _ => []
  | ch :: t, prevAlpha =>
      (if ch.isAlpha then (if prevAlpha then ch.toLower else ch.toUpper) else ch) ::
        titleAux t ch.isAlpha

/-- `Series.str.title()` on one value. -/
def titleStr (s : String) : String := (titleAux s.toList false).asString

/-- The fixed alias table collapsing historical state names. -/
def stateCorrections : List (String × String) :=
  [("DELHI", "NCT of Delhi"), ("NEW DELHI", "NCT of Delhi"),
   ("PONDICHERRY", "Puducherry"), ("ORISSA", "Odisha"),
   ("UTTARANCHAL", "Uttarakhand"), ("JAMMU & KASHMIR", "Jammu and Kashmir")]

/-- `Series.replace(state_corrections)` on one value: exact full-value
replacement. -/
def applyCorrections (s : String) : String :=
  match stateCorrections.find? (fun p => p.1 == s) with
  | some p => p.2
  | none => s

/-- Regex replace `[^a-zA-Z\s] -> ""` on one value. -/
def stripNonAlphaSpace (s : String) : String :=
  (s.toList.filter (fun ch => ch.isAlpha || ch.isWhitespace)).asString

/-- Python `str.strip()`. -/
def stripWS (s : String) : String :=
  ((s.toList.dropWhile Char.isWhitespace).reverse.dropWhile Char.isWhitespace).reverse.asString

/-- Leftmost run of six consecutive digits, regex `(\d{6})` under
`str.extract`; no match yields null. -/
def extract6 : List Char → Option String
  | [] => none
  | ch :: t =>
      if 6 ≤ (ch :: t).length && ((ch :: t).take 6).all Char.isDigit then
        some ((ch :: t).take 6).asString
      else extract6 t

/-- Pincode cleaning: `astype(str).str.strip()` then 6-digit extraction.  A
null cell becomes the string "nan", which contains no 6-digit run, hence
stays null. -/
def pincodeClean : Option String → Option String
  | none => none
  | some s => extract6 (stripWS s).toList

/-- Stage 4, `_clean_geographic_data`: title-case + alias replacement on
state, title-case + non-alphabetic stripping on district, strip + 6-digit
extraction on pincode, in that order, each only when present. -/
def cleanGeographicData (c : Cols) (rows : List Row) : List Row :=
  colStep c.pincode (fun l => l.map (fun r => { r with pincode := pincodeClean r.pincode }))
    (colStep c.district
      (fun l => l.map (fun r =>
        { r with district := r.district.map (fun s => stripNonAlphaSpace (titleStr s)) }))
      (colStep c.state
        (fun l => l.map (fun r =>
          { r with state := r.state.map (fun s => applyCorrections (titleStr s)) }))
        rows))

/-- Row sum of the present age-bucket columns (`DataFrame.sum(axis=1)`
treats NaN as 0). -/
def ageSum (c : Cols) (r : Row) : ℚ :=
  (if c.age0 then r.age0.getD 0 else 0) + (if c.age19 then r.age19.getD 0 else 0) +
  (if c.age41 then r.age41.getD 0 else 0) + (if c.age60 then r.age60.getD 0 else 0)

/-- Stage 5, `_validate_numeric_ranges`: non-negative enrolment filter then
1e6 upper clip; non-negative update filter then the `update ≤ 5·enrolment`
filter (only when the enrolment column exists); age clips at 0 below; then
the `age sum ≤ 1.1·enrolment` filter when an age column and the enrolment
column exist.  A NaN on the left of a pandas comparison fails the filter. -/
def validateNumericRanges (c : Cols) (rows : List Row) : List Row :=
  colStep ((c.age0 || c.age19 || c.age41 || c.age60) && c.enrol)
    (fun l => l.filter (fun r => match r.enrol with
      | some v => decide (ageSum c r ≤ v * (11 / 10))
      | none => false))
    (colStep c.age60 (fun l => l.map (fun r => { r with age60 := r.age60.map (fun v => max v 0) }))
      (colStep c.age41 (fun l => l.map (fun r => { r with age41 := r.age41.map (fun v => max v 0) }))
        (colStep c.age19 (fun l => l.map (fun r => { r with age19 := r.age19.map (fun v => max v 0) }))
          (colStep c.age0 (fun l => l.map (fun r => { r with age0 := r.age0.map (fun v => max v 0) }))
            (colStep c.upd
              (fun l =>
                colStep c.enrol
                  (fun l2 => l2.filter (fun r => match r.upd, r.enrol with
                    | some u, some v => decide (u ≤ v * 5)
                    | _, _ => false))
                  (l.filter (fun r => match r.upd with
                    | some u => decide (0 ≤ u)
                    | none => false)))
              (colStep c.enrol
                (fun l => (l.filter (fun r => match r.enrol with
                  | some v => decide (0 ≤ v)
                  | none => false)).map
                    (fun r => { r with enrol := r.enrol.map (fun v => min v 1000000) }))
                rows))))))

/-- The `(date, state, district)` duplicate key restricted to the columns
present; an absent column contributes a constant, matching its absence from
`drop_duplicates(subset=...)`. -/
def dedupKey (c : Cols) (r : Row) : DCell × Option String × Option String :=
  ((if c.date then r.date else DCell.null),
   (if c.state then r.state else none),
   (if c.district then r.district else none))

/-- `drop_duplicates(keep="first")`: keep the first row of each key in
input order.  pandas treats equal NaN keys as duplicates, as does the
structural equality here. -/
def dropDupsAux (c : Cols) (seen : List (DCell × Option String × Option String)) :
    List Row → List Row
  | [] => []
  | r :: t =>
      if dedupKey c r ∈ seen then dropDupsAux c seen t
      else r :: dropDupsAux c (dedupKey c r :: seen) t

/-- Stage 6, `_remove_duplicates`: no-op when none of the key columns
exists. -/
def removeDuplicates (c : Cols) (rows : List Row) : List Row :=
  if c.date || c.state || c.district then dropDupsAux c [] rows else rows

/-- Stage 1, `_standardize_columns`: renames DataFrame columns according to
the configured mapping; on the canonical typed table modelled here the
renaming reaches the canonical names already, and in every case
`DataFrame.rename` preserves the rows (count and content) unchanged. -/
def standardizeColumns (rows : List Row) : List Row := rows

/-- `AadhaarDataCleaner.clean`: the six stages in order. -/
def cleanPipeline (c : Cols) (now : Date) (rows : List Row) : List Row :=
  removeDuplicates c
    (validateNumericRanges c
      (cleanGeographicData c
        (cleanDates c now
          (handleMissingValues c
            (standardizeColumns rows)))))

end Cleaner

namespace Cleaner

theorem fillNumericCol_length (get : Row → Option ℚ) (set : Row → ℚ → Row)
    (rows : List Row) : (fillNumericCol get set rows).length = rows.length := by
  unfold fillNumericCol
  split_ifs <;> simp

theorem fillCatCol_length (get : Row → Option String) (set : Row → String → Row)
    (rows : List Row) : (fillCatCol get set rows).length = rows.length := by
  unfold fillCatCol
  split_ifs <;> simp

theorem colStep_length_le (b : Bool) (f : List Row → List Row) (rows : List Row)
    (hf : ∀ l, (f l).length ≤ l.length) : (colStep b f rows).length ≤ rows.length := by
  unfold colStep
  split_ifs
  · exact hf rows
  · exact le_rfl

theorem colStep_length_eq (b : Bool) (f : List Row → List Row) (rows : List Row)
    (hf : ∀ l, (f l).length = l.length) : (colStep b f rows).length = rows.length := by
  unfold colStep
  split_ifs
  · exact hf rows
  · rfl

theorem dropNullDates_length_le (c : Cols) (rows : List Row) :
    (dropNullDates c rows).length ≤ rows.length := by
  unfold dropNullDates
  split_ifs
  · exact List.length_filter_le _ _
  · exact le_rfl

theorem imputeAll_length (c : Cols) (rows : List Row) :
    (imputeAll c rows).length = rows.length := by
  unfold imputeAll
  rw [colStep_length_eq _ _ _ (fun l => fillCatCol_length _ _ l),
    colStep_length_eq _ _ _ (fun l => fillCatCol_length _ _ l),
    colStep_length_eq _ _ _ (fun l => fillCatCol_length _ _ l),
    colStep_length_eq _ _ _ (fun l => fillNumericCol_length _ _ l),
    colStep_length_eq _ _ _ (fun l => fillNumericCol_length _ _ l),
    colStep_length_eq _ _ _ (fun l => fillNumericCol_length _ _ l),
    colStep_length_eq _ _ _ (fun l => fillNumericCol_length _ _ l),
    colStep_length_eq _ _ _ (fun l => fillNumericCol_length _ _ l),
    colStep_length_eq _ _ _ (fun l => fillNumericCol_length _ _ l)]

theorem handleMissingValues_length_le (c : Cols) (rows : List Row) :
    (handleMissingValues c rows).length ≤ rows.length := by
  unfold handleMissingValues dropSparseRows
  refine le_trans (List.length_filter_le _ _) ?_
  rw [imputeAll_length c _]
  exact dropNullDates_length_le c rows

theorem cleanDates_length_le (c : Cols) (now : Date) (rows : List Row) :
    (cleanDates c now rows).length ≤ rows.length := by
  unfold cleanDates
  split_ifs
  · refine le_trans (List.length_filter_le _ _) ?_
    refine le_trans (List.length_filter_le _ _) ?_
    refine le_trans (List.length_filter_le _ _) ?_
    simp
  · exact le_rfl

theorem cleanGeographicData_length (c : Cols) (rows : List Row) :
    (cleanGeographicData c rows).length = rows.length := by
  unfold cleanGeographicData
  rw [colStep_length_eq _ _ _ (fun l => List.length_map l _),
    colStep_length_eq _ _ _ (fun l => List.length_map l _),
    colStep_length_eq _ _ _ (fun l => List.length_map l _)]

theorem validateNumericRanges_length_le (c : Cols) (rows : List Row) :
    (validateNumericRanges c rows).length ≤ rows.length := by
  unfold validateNumericRanges
  refine le_trans (colStep_length_le _ _ _ (fun l => List.length_filter_le _ _)) ?_
  refine le_trans (colStep_length_le _ _ _ (fun l => (List.length_map _ _).le)) ?_
  refine le_trans (colStep_length_le _ _ _ (fun l => (List.length_map _ _).le)) ?_
  refine le_trans (colStep_length_le _ _ _ (fun l => (List.length_map _ _).le)) ?_
  refine le_trans (colStep_length_le _ _ _ (fun l => (List.length_map _ _).le)) ?_
  refine le_trans (colStep_length_le _ _ _ ?_) ?_
  · intro l
    refine le_trans (colStep_length_le _ _ _ (fun l2 => List.length_filter_le _ _)) ?_
    exact List.length_filter_le _ _
  refine colStep_length_le _ _ _ ?_
  intro l
  rw [List.length_map]
  exact List.length_filter_le _ _

theorem dropDupsAux_length_le (c : Cols) (seen : List (DCell × Option String × Option String))
    (rows : List Row) : (dropDupsAux c seen rows).length ≤ rows.length := by
  induction rows generalizing seen with
  | nil => simp [dropDupsAux]
  | cons r t ih =>
      unfold dropDupsAux
      split_ifs
      · exact le_trans (ih seen) (Nat.le_succ _)
      · simpa using Nat.succ_le_succ (ih (dedupKey c r :: seen))

theorem removeDuplicates_length_le (c : Cols) (rows : List Row) :
    (removeDuplicates c rows).length ≤ rows.length := by
  unfold removeDuplicates
  split_ifs
  · exact dropDupsAux_length_le c [] rows
  · exact le_rfl

/-- C3: at none of the six cleaning stages does the row count increase, and
in particular the full pipeline never returns more rows than it was given. -/
theorem clean_monotone_shrink (c : Cols) (now : Date) (rows : List Row) :
    (standardizeColumns rows).length ≤ rows.length ∧
    (handleMissingValues c (standardizeColumns rows)).length ≤
      (standardizeColumns rows).length ∧
    (cleanDates c now (handleMissingValues c (standardizeColumns rows))).length ≤
      (handleMissingValues c (standardizeColumns rows)).length ∧
    (cleanGeographicData c (cleanDates c now (handleMissingValues c
      (standardizeColumns rows)))).length ≤
      (cleanDates c now (handleMissingValues c (standardizeColumns rows))).length ∧
    (validateNumericRanges c (cleanGeographicData c (cleanDates c now
      (handleMissingValues c (standardizeColumns rows))))).length ≤
      (cleanGeographicData c (cleanDates c now (handleMissingValues c
        (standardizeColumns rows)))).length ∧
    (removeDuplicates c (validateNumericRanges c (cleanGeographicData c
      (cleanDates c now (handleMissingValues c (standardizeColumns rows)))))).length ≤
      (validateNumericRanges c (cleanGeographicData c (cleanDates c now
        (handleMissingValues c (standardizeColumns rows))))).length ∧
    (cleanPipeline c now rows).length ≤ rows.length := by
  refine ⟨le_rfl, handleMissingValues_length_le c _, cleanDates_length_le c now _,
    (cleanGeographicData_length c _).le, validateNumericRanges_length_le c _,
    removeDuplicates_length_le c _, ?_⟩
  unfold cleanPipeline
  calc (removeDuplicates c (validateNumericRanges c (cleanGeographicData c
        (cleanDates c now (handleMissingValues c (standardizeColumns rows)))))).length
      ≤ (validateNumericRanges c (cleanGeographicData c (cleanDates c now
        (handleMissingValues c (standardizeColumns rows))))).length :=
        removeDuplicates_length_le c _
    _ ≤ (cleanGeographicData c (cleanDates c now (handleMissingValues c
        (standardizeColumns rows)))).length := validateNumericRanges_length_le c _
    _ = (cleanDates c now (handleMissingValues c (standardizeColumns rows))).length :=
        cleanGeographicData_length c _
    _ ≤ (handleMissingValues c (standardizeColumns rows)).length :=
        cleanDates_length_le c now _
    _ ≤ (standardizeColumns rows).length := handleMissingValues_length_le c _
    _ = rows.length := rfl

end Cleaner

namespace Cleaner

/-- A row in canonical clean form for the columns present: a parsed date in
the acceptance window, title-fixed canonical geographic strings, a 6-digit
pincode, and counts within all validated bounds; no null among present
columns. -/
def CleanRow (c : Cols) (now : Date) (r : Row) : Prop :=
  (∃ dt, r.date = DCell.valid dt ∧ dateLeB ⟨2009, 1, 1⟩ dt = true ∧ dateLeB dt now = true) ∧
  (c.state = true → ∃ s, r.state = some s ∧ titleStr s = s) ∧
  (c.district = true → ∃ s, r.district = some s ∧ titleStr s = s ∧ stripNonAlphaSpace s = s) ∧
  (c.pincode = true → ∃ s, r.pincode = some s ∧ extract6 (stripWS s).toList = some s) ∧
  (c.enrol = true → ∃ v, r.enrol = some v ∧ 0 ≤ v ∧ v ≤ 1000000) ∧
  (c.upd = true → ∃ u, r.upd = some u ∧ 0 ≤ u ∧
    (c.enrol = true → ∀ v, r.enrol = some v → u ≤ v * 5)) ∧
  (c.age0 = true → ∃ a, r.age0 = some a ∧ 0 ≤ a) ∧
  (c.age19 = true → ∃ a, r.age19 = some a ∧ 0 ≤ a) ∧
  (c.age41 = true → ∃ a, r.age41 = some a ∧ 0 ≤ a) ∧
  (c.age60 = true → ∃ a, r.age60 = some a ∧ 0 ≤ a) ∧
  (c.enrol = true → ∀ v, r.enrol = some v → ageSum c r ≤ v * (11 / 10))

theorem colStep_eq_self (b : Bool) (f : List Row → List Row) (rows : List Row)
    (h : b = true → f rows = rows) : colStep b f rows = rows := by
  unfold colStep
  split_ifs with hb
  · exact h hb
  · rfl

theorem fillNumericCol_eq_self (get : Row → Option ℚ) (set : Row → ℚ → Row)
    (rows : List Row) (h : ∀ r ∈ rows, (get r).isSome = true) :
    fillNumericCol get set rows = rows := by
  have hfalse : rows.any (fun r => (get r).isNone) = false := by
    rw [List.any_eq_false]
    intro r hr
    obtain ⟨v, hv⟩ := Option.isSome_iff_exists.mp (h r hr)
    simp [hv]
  unfold fillNumericCol
  simp [hfalse]

theorem fillCatCol_eq_self (get : Row → Option String) (set : Row → String → Row)
    (rows : List Row) (h : ∀ r ∈ rows, (get r).isSome = true) :
    fillCatCol get set rows = rows := by
  have hfalse : rows.any (fun r => (get r).isNone) = false := by
    rw [List.any_eq_false]
    intro r hr
    obtain ⟨v, hv⟩ := Option.isSome_iff_exists.mp (h r hr)
    simp [hv]
  unfold fillCatCol
  simp [hfalse]

theorem applyCorrections_eq_self (s : String) (h : titleStr s = s) :
    applyCorrections s = s := by
  unfold applyCorrections
  cases hfind : stateCorrections.find? (fun p => p.1 == s) with
  | none => rfl
  | some p =>
      have hbeq := List.find?_some hfind
      have hmem : p ∈ stateCorrections := List.mem_of_find?_eq_some hfind
      have hs : p.1 = s := by simpa using hbeq
      rw [← hs] at h
      fin_cases hmem <;> exact absurd h (by decide)

theorem dropDupsAux_eq_self (c : Cols) (rows : List Row)
    (seen : List (DCell × Option String × Option String))
    (hseen : ∀ r ∈ rows, dedupKey c r ∉ seen)
    (hpw : List.Pairwise (fun a b => dedupKey c a ≠ dedupKey c b) rows) :
    dropDupsAux c seen rows = rows := by
  induction rows generalizing seen with
  | nil => rfl
  | cons r t ih =>
      unfold dropDupsAux
      rw [if_neg (hseen r (List.mem_cons_self r t))]
      have hhead := (List.pairwise_cons.mp hpw).1
      have htail := (List.pairwise_cons.mp hpw).2
      rw [ih (dedupKey c r :: seen) ?_ htail]
      intro x hx
      rw [List.mem_cons]
      push_neg
      exact ⟨fun he => hhead x hx he.symm, fun he => hseen x (List.mem_cons_of_mem r hx) he⟩

theorem removeDuplicates_eq_self (c : Cols) (rows : List Row)
    (hpw : List.Pairwise (fun a b => dedupKey c a ≠ dedupKey c b) rows) :
    removeDuplicates c rows = rows := by
  unfold removeDuplicates
  split_ifs
  · exact dropDupsAux_eq_self c rows [] (by simp) hpw
  · rfl

end Cleaner

namespace Cleaner

theorem nullTerm_zero (b t : Bool) (h : b = true → t = false) :
    (if b && t then 1 else 0) = 0 := by
  cases b <;> simp_all

/-- C8: the Data Cleaner is idempotent on an already-clean table — for every
table whose rows are in canonical clean form (no nulls among present
columns, parsed in-window dates, title-fixed geographic strings, six-digit
pincodes, counts within bounds) and whose (date, state, district) keys are
pairwise distinct, `clean` returns the rows unchanged. -/
theorem clean_idempotent (c : Cols) (now : Date) (rows : List Row)
    (hdate : c.date = true)
    (hclean : ∀ r ∈ rows, CleanRow c now r)
    (hnodup : List.Pairwise (fun a b => dedupKey c a ≠ dedupKey c b) rows) :
    cleanPipeline c now rows = rows := by
  have hd : dropNullDates c rows = rows := by
    unfold dropNullDates
    rw [if_pos hdate]
    apply List.filter_eq_self.mpr
    intro r hr
    obtain ⟨⟨dt, hdt, -, -⟩, -⟩ := hclean r hr
    simp [hdt, DCell.isNull]
  have hi : imputeAll c rows = rows := by
    unfold imputeAll
    rw [colStep_eq_self _ _ rows (fun hb => fillNumericCol_eq_self _ _ rows (fun r hr => by
        obtain ⟨-, -, -, -, hen, -⟩ := hclean r hr
        obtain ⟨v, hv, -⟩ := hen hb
        simp [hv])),
      colStep_eq_self _ _ rows (fun hb => fillNumericCol_eq_self _ _ rows (fun r hr => by
        obtain ⟨-, -, -, -, -, hup, -⟩ := hclean r hr
        obtain ⟨u, hu, -⟩ := hup hb
        simp [hu])),
      colStep_eq_self _ _ rows (fun hb => fillNumericCol_eq_self _ _ rows (fun r hr => by
        obtain ⟨-, -, -, -, -, -, ha0, -⟩ := hclean r hr
        obtain ⟨a, ha, -⟩ := ha0 hb
        simp [ha])),
      colStep_eq_self _ _ rows (fun hb => fillNumericCol_eq_self _ _ rows (fun r hr => by
        obtain ⟨-, -, -, -, -, -, -, ha19, -⟩ := hclean r hr
        obtain ⟨a, ha, -⟩ := ha19 hb
        simp [ha])),
      colStep_eq_self _ _ rows (fun hb => fillNumericCol_eq_self _ _ rows (fun r hr => by
        obtain ⟨-, -, -, -, -, -, -, -, ha41, -⟩ := hclean r hr
        obtain ⟨a, ha, -⟩ := ha41 hb
        simp [ha])),
      colStep_eq_self _ _ rows (fun hb => fillNumericCol_eq_self _ _ rows (fun r hr => by
        obtain ⟨-, -, -, -, -, -, -, -, -, ha60, -⟩ := hclean r hr
        obtain ⟨a, ha, -⟩ := ha60 hb
        simp [ha])),
      colStep_eq_self _ _ rows (fun hb => fillCatCol_eq_self _ _ rows (fun r hr => by
        obtain ⟨-, hst, -⟩ := hclean r hr
        obtain ⟨s, hs, -⟩ := hst hb
        simp [hs])),
      colStep_eq_self _ _ rows (fun hb => fillCatCol_eq_self _ _ rows (fun r hr => by
        obtain ⟨-, -, hdi, -⟩ := hclean r hr
        obtain ⟨s, hs, -⟩ := hdi hb
        simp [hs])),
      colStep_eq_self _ _ rows (fun hb => fillCatCol_eq_self _ _ rows (fun r hr => by
        obtain ⟨-, -, -, hpi, -⟩ := hclean r hr
        obtain ⟨s, hs, -⟩ := hpi hb
        simp [hs]))]
  have hsparse : dropSparseRows c rows = rows := by
    apply List.filter_eq_self.mpr
    intro r hr
    obtain ⟨⟨dt, hdt, -, -⟩, hst, hdi, hpi, hen, hup, ha0, ha19, ha41, ha60, -⟩ := hclean r hr
    have h0 : nullCount c r = 0 := by
      unfold nullCount
      rw [nullTerm_zero _ _ (fun _ => by simp [hdt, DCell.isNull]),
        nullTerm_zero _ _ (fun hb => by obtain ⟨s, hs, -⟩ := hst hb; simp [hs]),
        nullTerm_zero _ _ (fun hb => by obtain ⟨s, hs, -⟩ := hdi hb; simp [hs]),
        nullTerm_zero _ _ (fun hb => by obtain ⟨s, hs, -⟩ := hpi hb; simp [hs]),
        nullTerm_zero _ _ (fun hb => by obtain ⟨v, hv, -⟩ := hen hb; simp [hv]),
        nullTerm_zero _ _ (fun hb => by obtain ⟨u, hu, -⟩ := hup hb; simp [hu]),
        nullTerm_zero _ _ (fun hb => by obtain ⟨a, ha, -⟩ := ha0 hb; simp [ha]),
        nullTerm_zero _ _ (fun hb => by obtain ⟨a, ha, -⟩ := ha19 hb; simp [ha]),
        nullTerm_zero _ _ (fun hb => by obtain ⟨a, ha, -⟩ := ha41 hb; simp [ha]),
        nullTerm_zero _ _ (fun hb => by obtain ⟨a, ha, -⟩ := ha60 hb; simp [ha])]
    have hp : 0 < presentCount c := by
      unfold presentCount
      simp only [hdate, if_true]
      omega
    simp only [h0, decide_eq_true_eq]
    omega
  have h2 : handleMissingValues c rows = rows := by
    unfold handleMissingValues
    rw [hd, hi]
    exact hsparse
  have h3 : cleanDates c now rows = rows := by
    unfold cleanDates
    rw [if_pos hdate]
    have hm : rows.map (fun r => { r with date := coerceDate r.date }) = rows := by
      apply map_eq_self_of
      intro r hr
      obtain ⟨⟨dt, hdt, -, -⟩, -⟩ := hclean r hr
      cases r
      simp_all [coerceDate]
    rw [hm,
      show rows.filter _ = rows from List.filter_eq_self.mpr (fun r hr => by
        obtain ⟨⟨dt, hdt, -, -⟩, -⟩ := hclean r hr
        simp [hdt, DCell.isNull]),
      show rows.filter _ = rows from List.filter_eq_self.mpr (fun r hr => by
        obtain ⟨⟨dt, hdt, hlo, -⟩, -⟩ := hclean r hr
        simp only [hdt]
        exact hlo),
      show rows.filter _ = rows from List.filter_eq_self.mpr (fun r hr => by
        obtain ⟨⟨dt, hdt, -, hhi⟩, -⟩ := hclean r hr
        simp only [hdt]
        exact hhi)]
  have h4 : cleanGeographicData c rows = rows := by
    unfold cleanGeographicData
    rw [colStep_eq_self _ _ rows (fun hb => map_eq_self_of _ _ (fun r hr => by
        obtain ⟨-, hst, -⟩ := hclean r hr
        obtain ⟨s, hs, hts⟩ := hst hb
        have hca : applyCorrections (titleStr s) = s := by
          rw [hts]
          exact applyCorrections_eq_self s hts
        cases r
        simp_all)),
      colStep_eq_self _ _ rows (fun hb => map_eq_self_of _ _ (fun r hr => by
        obtain ⟨-, -, hdi, -⟩ := hclean r hr
        obtain ⟨s, hs, hts, hstrip⟩ := hdi hb
        have hds : stripNonAlphaSpace (titleStr s) = s := by
          rw [hts]
          exact hstrip
        cases r
        simp_all)),
      colStep_eq_self _ _ rows (fun hb => map_eq_self_of _ _ (fun r hr => by
        obtain ⟨-, -, -, hpi, -⟩ := hclean r hr
        obtain ⟨s, hs, hex⟩ := hpi hb
        have hpc : pincodeClean r.pincode = some s := by
          rw [hs]
          exact hex
        cases r
        simp_all [pincodeClean]))]
  have h5 : validateNumericRanges c rows = rows := by
    unfold validateNumericRanges
    rw [colStep_eq_self _ _ rows (fun hb => by
        rw [List.filter_eq_self.mpr (fun r hr => by
          obtain ⟨-, -, -, -, hen, -⟩ := hclean r hr
          obtain ⟨v, hv, hv0, -⟩ := hen hb
          simp only [hv]
          exact decide_eq_true hv0)]
        apply map_eq_self_of
        intro r hr
        obtain ⟨-, -, -, -, hen, -⟩ := hclean r hr
        obtain ⟨v, hv, -, hv1⟩ := hen hb
        have : r.enrol.map (fun v => min v 1000000) = r.enrol := by
          rw [hv]
          simp [min_eq_left hv1]
        cases r
        simp_all),
      colStep_eq_self _ _ rows (fun hb => by
        rw [List.filter_eq_self.mpr (fun r hr => by
          obtain ⟨-, -, -, -, -, hup, -⟩ := hclean r hr
          obtain ⟨u, hu, hu0, -⟩ := hup hb
          simp only [hu]
          exact decide_eq_true hu0)]
        apply colStep_eq_self
        intro hbe
        apply List.filter_eq_self.mpr
        intro r hr
        obtain ⟨-, -, -, -, hen, hup, -⟩ := hclean r hr
        obtain ⟨u, hu, -, hu5⟩ := hup hb
        obtain ⟨v, hv, -⟩ := hen hbe
        simp only [hu, hv]
        exact decide_eq_true (hu5 hbe v hv)),
      colStep_eq_self _ _ rows (fun hb => map_eq_self_of _ _ (fun r hr => by
        obtain ⟨-, -, -, -, -, -, ha0, -⟩ := hclean r hr
        obtain ⟨a, ha, ha0'⟩ := ha0 hb
        have : r.age0.map (fun v => max v 0) = r.age0 := by
          rw [ha]
          simp [max_eq_left ha0']
        cases r
        simp_all)),
      colStep_eq_self _ _ rows (fun hb => map_eq_self_of _ _ (fun r hr => by
        obtain ⟨-, -, -, -, -, -, -, ha19, -⟩ := hclean r hr
        obtain ⟨a, ha, ha0'⟩ := ha19 hb
        have : r.age19.map (fun v => max v 0) = r.age19 := by
          rw [ha]
          simp [max_eq_left ha0']
        cases r
        simp_all)),
      colStep_eq_self _ _ rows (fun hb => map_eq_self_of _ _ (fun r hr => by
        obtain ⟨-, -, -, -, -, -, -, -, ha41, -⟩ := hclean r hr
        obtain ⟨a, ha, ha0'⟩ := ha41 hb
        have : r.age41.map (fun v => max v 0) = r.age41 := by
          rw [ha]
          simp [max_eq_left ha0']
        cases r
        simp_all)),
      colStep_eq_self _ _ rows (fun hb => map_eq_self_of _ _ (fun r hr => by
        obtain ⟨-, -, -, -, -, -, -, -, -, ha60, -⟩ := hclean r hr
        obtain ⟨a, ha, ha0'⟩ := ha60 hb
        have : r.age60.map (fun v => max v 0) = r.age60 := by
          rw [ha]
          simp [max_eq_left ha0']
        cases r
        simp_all)),
      colStep_eq_self _ _ rows (fun hb => List.filter_eq_self.mpr (fun r hr => by
        have hbe : c.enrol = true := (Bool.and_eq_true _ _ |>.mp hb).2
        obtain ⟨-, -, -, -, hen, -, -, -, -, -, hsum⟩ := hclean r hr
        obtain ⟨v, hv, -⟩ := hen hbe
        simp only [hv]
        exact decide_eq_true (hsum hbe v hv)))]
  show removeDuplicates c (validateNumericRanges c (cleanGeographicData c
    (cleanDates c now (handleMissingValues c (standardizeColumns rows))))) = rows
  unfold standardizeColumns
  rw [h2, h3, h4, h5]
  exact removeDuplicates_eq_self c rows hnodup

end Cleaner

namespace Cleaner

/-- An already-clean one-row table used to witness idempotence. -/
def exCols : Cols := ⟨true, true, true, true, true, true, true, true, true, true⟩

/-- Clean-run reference date for the witness. -/
def exNow : Date := ⟨2025, 1, 1⟩

/-- A canonical clean row. -/
def exRow : Row :=
  ⟨DCell.valid ⟨2020, 5, 1⟩, some "Delhi", some "Mumbai", some "110001",
    some 100, some 50, some 10, some 20, some 30, some 40⟩

/-- Witness for C8: cleaning the concrete already-clean one-row table
returns it unchanged. -/
theorem clean_idempotent_witness : cleanPipeline exCols exNow [exRow] = [exRow] := by
  apply clean_idempotent
  · rfl
  · intro r hr
    rw [List.mem_singleton] at hr
    subst hr
    refine ⟨⟨⟨2020, 5, 1⟩, rfl, by decide, by decide⟩, ?_, ?_, ?_, ?_, ?_, ?_, ?_, ?_, ?_, ?_⟩
    · exact fun _ => ⟨"Delhi", rfl, by decide⟩
    · exact fun _ => ⟨"Mumbai", rfl, by decide, by decide⟩
    · exact fun _ => ⟨"110001", rfl, by decide⟩
    · exact fun _ => ⟨100, rfl, by norm_num, by norm_num⟩
    · refine fun _ => ⟨50, rfl, by norm_num, ?_⟩
      intro _ v hv
      have hv100 : v = 100 := by
        have : (some (100 : ℚ)) = some v := hv
        injection this with h
        exact h.symm
      rw [hv100]
      norm_num
    · exact fun _ => ⟨10, rfl, by norm_num⟩
    · exact fun _ => ⟨20, rfl, by norm_num⟩
    · exact fun _ => ⟨30, rfl, by norm_num⟩
    · exact fun _ => ⟨40, rfl, by norm_num⟩
    · intro _ v hv
      have hv100 : v = 100 := by
        have : (some (100 : ℚ)) = some v := hv
        injection this with h
        exact h.symm
      rw [hv100]
      norm_num [ageSum, exCols, exRow]
  · simp

end Cleaner

/-! ## Feature Aggregator
(`AadhaarFeatureEngineer._create_aggregated_features`) -/

namespace Aggregator

/-- One cleaned record as the aggregator consumes it: `state`, the calendar
month (`date.dt.to_period("M")`, encoded order-isomorphically as a natural
number), and the two canonical count metrics.  The enrolment column is the
first one found of the candidate names and the update column the second, as
in the detection loops of the code. -/
structure Rec where
  state : String
  ym : ℕ
  enrol : ℚ
  upd : ℚ
deriving DecidableEq

/-- The distinct states in pandas groupby order (`groupby` sorts keys
ascending; strings compare lexicographically by character code). -/
def statesOf (rs : List Rec) : List String :=
  List.insertionSort (fun a b => strLeB a b) (rs.map (fun r => r.state)).dedup

/-- The distinct months of one state, ascending (the second groupby key). -/
def monthsOf (rs : List Rec) (s : String) : List ℕ :=
  List.insertionSort (· ≤ ·) ((rs.filter (fun r => r.state == s)).map (fun r => r.ym)).dedup

/-- The records of one `(state, year_month)` group. -/
def groupRecs (rs : List Rec) (s : String) (ym : ℕ) : List Rec :=
  rs.filter (fun r => r.state == s && r.ym == ym)

/-- `enrolment_count sum` of one group. -/
def volSum (rs : List Rec) (s : String) (ym : ℕ) : ℚ :=
  ((groupRecs rs s ym).map (fun r => r.enrol)).sum

/-- `enrolment_count mean` of one group. -/
def volMean (rs : List Rec) (s : String) (ym : ℕ) : ℚ :=
  meanQ ((groupRecs rs s ym).map (fun r => r.enrol))

/-- `update_count sum` of one group. -/
def updSum (rs : List Rec) (s : String) (ym : ℕ) : ℚ :=
  ((groupRecs rs s ym).map (fun r => r.upd)).sum

/-- The monthly `volume_sum` series of one state, months ascending. -/
def volsOf (rs : List Rec) (s : String) : List ℚ :=
  (monthsOf rs s).map (fun ym => volSum rs s ym)

/-- One step of `Series.pct_change`: fractional change against the previous
value.  pandas yields NaN for the first row of a group; a zero predecessor
yields a non-finite float (±inf, or NaN for 0/0), modelled as the same
missing sentinel. -/
def pctChange (prev cur : ℚ) : Option ℚ :=
  if prev = 0 then none else some ((cur - prev) / prev)

/-- `groupby("state")[primary_sum].pct_change()` restricted to one state
group: NaN for the first month, then consecutive fractional changes.  In the
aggregated frame the state groups are contiguous and month-ascending (sorted
groupby output), so the group-wise column concatenates in place. -/
def growthsOf (rs : List Rec) (s : String) : List (Option ℚ) :=
  match volsOf rs s with
  | [] => []
  | v :: vs => none :: List.zipWith pctChange (v :: vs) vs

/-- One row of the aggregated monthly table.  The `<metric>_std` aggregate
column is not carried: it is referenced by no downstream computation settled
here.  `updateRatioQ` is the `update_ratio` column:
`update_sum / enrolment_sum.replace(0, 1)` computed element-wise. -/
structure ARow where
  state : String
  ym : ℕ
  enrol_sum : ℚ
  enrol_mean : ℚ
  update_sum : ℚ
  mom_growth : Option ℚ
  updateRatioQ : ℚ
deriving DecidableEq

/-- The monthly rows of one state, months ascending, with the derived
columns. -/
def regionRows (rs : List Rec) (s : String) : List ARow :=
  (List.zip (monthsOf rs s) (growthsOf rs s)).map (fun p =>
    ⟨s, p.1, volSum rs s p.1, volMean rs s p.1, updSum rs s p.1, p.2,
      updSum rs s p.1 / (if volSum rs s p.1 = 0 then 1 else volSum rs s p.1)⟩)

/-- The aggregated monthly table: `groupby(["state", "year_month"])` output
in sorted key order (state-major, months ascending within each state), with
`mom_growth` and `update_ratio` columns added groupwise. -/
def aggregate (rs : List Rec) : List ARow :=
  (statesOf rs).flatMap (fun s => regionRows rs s)

/-- The per-state z-score transform
`(x - x.mean()) / x.std() if x.std() > 0 else 0` over the state's
`volume_sum` series; parametric in the square-root function used for the
std value (the zero branch never consults it). -/
def zScore (sqrtQ : ℚ → ℚ) (rs : List Rec) (s : String) (x : ℚ) : ℚ :=
  if stdPosB (volsOf rs s) then
    (x - meanQ (volsOf rs s)) / sqrtQ (sampleVar (volsOf rs s))
  else 0

theorem statesOf_nodup (rs : List Rec) : (statesOf rs).Nodup :=
  (List.perm_insertionSort _ _).nodup_iff.mpr (List.nodup_dedup _)

theorem regionRows_state (rs : List Rec) (s : String) :
    ∀ r ∈ regionRows rs s, r.state = s := by
  intro r hr
  obtain ⟨p, -, rfl⟩ := List.mem_map.mp hr
  rfl

theorem filter_flatMap_eq (L : List String) (f : String → List ARow) (s : String)
    (hL : L.Nodup) (hs : s ∈ L) (hstate : ∀ t, ∀ r ∈ f t, r.state = t) :
    (L.flatMap f).filter (fun r => r.state == s) = f s := by
  induction L with
  | nil => cases hs
  | cons t T ih =>
      obtain ⟨htT, hT⟩ := List.nodup_cons.mp hL
      rw [List.flatMap_cons, List.filter_append]
      rcases List.mem_cons.mp hs with rfl | hsT
      · have h1 : (f s).filter (fun r => r.state == s) = f s :=
          List.filter_eq_self.mpr (fun r hr => by simp [hstate s r hr])
        have h2 : (T.flatMap f).filter (fun r => r.state == s) = [] := by
          apply List.filter_eq_nil_iff.mpr
          intro r hr
          obtain ⟨u, hu, hru⟩ := List.mem_flatMap.mp hr
          have hst := hstate u r hru
          have : u ≠ s := fun he => htT (he ▸ hu)
          simp [hst, this]
        rw [h1, h2, List.append_nil]
      · have htne : t ≠ s := fun he => htT (he ▸ hsT)
        have h1 : (f t).filter (fun r => r.state == s) = [] := by
          apply List.filter_eq_nil_iff.mpr
          intro r hr
          have hst := hstate t r hr
          simp [hst, htne]
        rw [h1, ih hT hsT, List.nil_append]

theorem aggregate_filter_eq (rs : List Rec) (s : String) (hs : s ∈ statesOf rs) :
    (aggregate rs).filter (fun r => r.state == s) = regionRows rs s :=
  filter_flatMap_eq (statesOf rs) (fun t => regionRows rs t) s
    (statesOf_nodup rs) hs (fun t => regionRows_state rs t)

theorem monthsOf_pairwise_lt (rs : List Rec) (s : String) :
    List.Pairwise (· < ·) (monthsOf rs s) := by
  have hsort : List.Pairwise (· ≤ ·) (monthsOf rs s) :=
    List.sorted_insertionSort _ _
  have hnd : (monthsOf rs s).Nodup :=
    (List.perm_insertionSort _ _).nodup_iff.mpr (List.nodup_dedup _)
  exact (hsort.and hnd).imp (fun h => lt_of_le_of_ne h.1 h.2)

theorem monthsOf_ne_nil (rs : List Rec) (s : String) (hs : s ∈ statesOf rs) :
    monthsOf rs s ≠ [] := by
  unfold statesOf at hs
  rw [(List.perm_insertionSort _ _).mem_iff, List.mem_dedup, List.mem_map] at hs
  obtain ⟨rec, hrec, hstate⟩ := hs
  unfold monthsOf
  intro hnil
  have : rec.ym ∈ List.insertionSort (· ≤ ·)
      ((rs.filter (fun r => r.state == s)).map (fun r => r.ym)).dedup := by
    rw [(List.perm_insertionSort _ _).mem_iff, List.mem_dedup, List.mem_map]
    exact ⟨rec, List.mem_filter.mpr ⟨hrec, by simp [hstate]⟩, rfl⟩
  rw [hnil] at this
  cases this

theorem growthsOf_eq (rs : List Rec) (s : String) (hne : volsOf rs s ≠ []) :
    growthsOf rs s = none :: List.zipWith pctChange (volsOf rs s) (volsOf rs s).tail := by
  unfold growthsOf
  cases h : volsOf rs s with
  | nil => exact absurd h hne
  | cons v vs => rfl

end Aggregator

namespace Aggregator

/-- The two-region three-month scenario input: region A has monthly volumes
[100, 100, 100] and region B has [100, 100, 300]. -/
def exC4 : List Rec :=
  [⟨"A", 0, 100, 0⟩, ⟨"A", 1, 100, 0⟩, ⟨"A", 2, 100, 0⟩,
   ⟨"B", 0, 100, 0⟩, ⟨"B", 1, 100, 0⟩, ⟨"B", 2, 300, 0⟩]

/-- C4: in the aggregated table, each region's rows are its months in
strictly ascending calendar order, the first month's `mom_growth` is the
missing sentinel (never 0), and every later month's growth is the fractional
change of `volume_sum` against the region's immediately preceding month; in
particular region B of the concrete two-region scenario has growth
[none, 0, 2] and so reports 2.0 in its third month. -/
theorem mom_growth_per_region :
    (∀ (rs : List Rec) (s : String), s ∈ statesOf rs →
      List.Pairwise (· < ·) (monthsOf rs s) ∧
      ((aggregate rs).filter (fun r => r.state == s)).map (fun r => (r.ym, r.mom_growth)) =
        List.zip (monthsOf rs s)
          (none :: List.zipWith pctChange (volsOf rs s) (volsOf rs s).tail)) ∧
    ((aggregate exC4).filter (fun r => r.state == "B")).map (fun r => r.mom_growth) =
      [none, some 0, some 2] := by
  have hmain : ∀ (rs : List Rec) (s : String), s ∈ statesOf rs →
      List.Pairwise (· < ·) (monthsOf rs s) ∧
      ((aggregate rs).filter (fun r => r.state == s)).map (fun r => (r.ym, r.mom_growth)) =
        List.zip (monthsOf rs s)
          (none :: List.zipWith pctChange (volsOf rs s) (volsOf rs s).tail) := by
    intro rs s hs
    refine ⟨monthsOf_pairwise_lt rs s, ?_⟩
    rw [aggregate_filter_eq rs s hs]
    have hvne : volsOf rs s ≠ [] := by
      unfold volsOf
      simp only [ne_eq, List.map_eq_nil_iff]
      exact monthsOf_ne_nil rs s hs
    rw [← growthsOf_eq rs s hvne]
    unfold regionRows
    rw [List.map_map]
    exact map_eq_self_of _ _ (fun p hp => rfl)
  refine ⟨hmain, ?_⟩
  have hB := (hmain exC4 "B" (by decide)).2
  have hmB : monthsOf exC4 "B" = [0, 1, 2] := by decide
  have hvB : volsOf exC4 "B" = [100, 100, 300] := by
    have hg0 : groupRecs exC4 "B" 0 = [⟨"B", 0, 100, 0⟩] := by decide
    have hg1 : groupRecs exC4 "B" 1 = [⟨"B", 1, 100, 0⟩] := by decide
    have hg2 : groupRecs exC4 "B" 2 = [⟨"B", 2, 300, 0⟩] := by decide
    rw [volsOf, hmB]
    simp [volSum, hg0, hg1, hg2, List.sum]
  have hmap : ((aggregate exC4).filter (fun r => r.state == "B")).map
      (fun r => (r.ym, r.mom_growth)) =
      List.zip [0, 1, 2] (none :: List.zipWith pctChange [100, 100, 300] [100, 300]) := by
    rw [hB, hmB, hvB]
    rfl
  have hzip : List.zip ([0, 1, 2] : List ℕ)
      (none :: List.zipWith pctChange [100, 100, 300] [100, 300]) =
      [(0, none), (1, some 0), (2, some 2)] := by
    norm_num [pctChange, List.zipWith, List.zip]
  rw [hzip] at hmap
  have := congrArg (List.map Prod.snd) hmap
  rw [List.map_map] at this
  simpa using this

end Aggregator

/-- Exact square root on perfect-square rationals (in particular 0 and 1),
used to instantiate the square-root parameter of the embedding at concrete
inputs where the irrational case does not arise. -/
def ratSqrt (q : ℚ) : ℚ := (Nat.sqrt q.num.toNat : ℚ) / (Nat.sqrt q.den : ℚ)

namespace Aggregator

/-- Witness for C4 at the concrete scenario input, region B. -/
theorem mom_growth_per_region_witness :
    ("B" ∈ statesOf exC4) ∧
    List.Pairwise (· < ·) (monthsOf exC4 "B") ∧
    ((aggregate exC4).filter (fun r => r.state == "B")).map (fun r => (r.ym, r.mom_growth)) =
      List.zip (monthsOf exC4 "B")
        (none :: List.zipWith pctChange (volsOf exC4 "B") (volsOf exC4 "B").tail) := by
  have hm := mom_growth_per_region.1 exC4 "B" (by decide)
  exact ⟨by decide, hm.1, hm.2⟩

/-- One cleaned record whose volume count is the fraction 1/2 (fractional
counts survive cleaning: range validation only requires non-negativity and
the upper clip, and median imputation itself introduces halves). -/
def exC5 : List Rec := [⟨"A", 0, 1/2, 1⟩]

theorem exC5_group : groupRecs exC5 "A" 0 = [⟨"A", 0, 1/2, 1⟩] := by
  simp [groupRecs, exC5]

theorem exC5_months : monthsOf exC5 "A" = [0] := by decide

theorem exC5_vols : volsOf exC5 "A" = [1/2] := by
  rw [volsOf, exC5_months]
  simp [volSum, exC5_group, List.sum]

/-- Counterexample to C5 as stated: the code computes
`update_ratio = update_sum / enrolment_sum.replace(0, 1)`, which differs
from the claimed `update_sum / max(volume_sum, 1)` whenever
`0 < volume_sum < 1`.  At the single aggregate row with `volume_sum = 1/2`
and `update_sum = 1` the code yields 2 while the claimed formula yields 1. -/
theorem update_ratio_formula_counterexample :
    (aggregate exC5).map (fun r => r.updateRatioQ) = [2] ∧
    (aggregate exC5).map (fun r => r.update_sum / max r.enrol_sum 1) = [1] ∧
    (2 : ℚ) ≠ 1 := by
  have hst : statesOf exC5 = ["A"] := by decide
  have hv : volSum exC5 "A" 0 = 1/2 := by simp [volSum, exC5_group, List.sum]
  have hu : updSum exC5 "A" 0 = 1 := by simp [updSum, exC5_group, List.sum]
  have hagg : aggregate exC5 = [⟨"A", 0, volSum exC5 "A" 0, volMean exC5 "A" 0,
      updSum exC5 "A" 0, none,
      updSum exC5 "A" 0 / (if volSum exC5 "A" 0 = 0 then 1 else volSum exC5 "A" 0)⟩] := by
    rw [aggregate, hst]
    simp [regionRows, growthsOf, exC5_vols, exC5_months]
  rw [hagg]
  refine ⟨?_, ?_, by norm_num⟩
  · simp only [List.map_cons, List.map_nil]
    rw [hv, hu]
    norm_num
  · simp only [List.map_cons, List.map_nil]
    rw [hv, hu]
    norm_num

/-- C5 (amended): for every aggregate row produced from records with
non-negative counts, `update_ratio = update_sum / d` where `d` is
`volume_sum` with an exact zero replaced by 1 (pandas `.replace(0, 1)` —
this agrees with the claimed `max(volume_sum, 1)` at non-negative integers
but not on (0,1)), and `update_ratio ≥ 0`; and the z-score of every row of a
region whose `volume_sum` series is constant (standard deviation 0,
including single-month regions) is 0. -/
theorem update_ratio_zscore (sqrtQ : ℚ → ℚ) (rs : List Rec)
    (hpos : ∀ rec ∈ rs, 0 ≤ rec.enrol ∧ 0 ≤ rec.upd) :
    (∀ row ∈ aggregate rs,
      row.updateRatioQ =
        row.update_sum / (if row.enrol_sum = 0 then 1 else row.enrol_sum) ∧
      0 ≤ row.updateRatioQ) ∧
    (∀ s x, (∀ a ∈ volsOf rs s, ∀ b ∈ volsOf rs s, a = b) →
      zScore sqrtQ rs s x = 0) := by
  constructor
  · intro row hrow
    obtain ⟨s, -, hrr⟩ := List.mem_flatMap.mp hrow
    obtain ⟨p, -, rfl⟩ := List.mem_map.mp hrr
    refine ⟨rfl, ?_⟩
    have hus : 0 ≤ updSum rs s p.1 := by
      apply List.sum_nonneg
      intro x hx
      obtain ⟨rec, hrec, rfl⟩ := List.mem_map.mp hx
      exact (hpos rec (List.mem_filter.mp hrec).1).2
    have hvs : 0 ≤ volSum rs s p.1 := by
      apply List.sum_nonneg
      intro x hx
      obtain ⟨rec, hrec, rfl⟩ := List.mem_map.mp hx
      exact (hpos rec (List.mem_filter.mp hrec).1).1
    show 0 ≤ updSum rs s p.1 / (if volSum rs s p.1 = 0 then 1 else volSum rs s p.1)
    split_ifs with h0
    · simpa using hus
    · exact div_nonneg hus (lt_of_le_of_ne hvs (Ne.symm h0)).le
  · intro s x hconst
    unfold zScore
    rw [if_neg]
    intro hb
    have hvar : sampleVar (volsOf rs s) = 0 := by
      rw [sampleVar, sqDevSum_eq_zero_of_const _ hconst, zero_div]
    rw [stdPosB, hvar] at hb
    simp at hb

/-- Witness for C5 at the concrete one-record input: the hypotheses hold and
the z-score of the constant single-month region collapses to 0. -/
theorem update_ratio_zscore_witness :
    (∀ rec ∈ exC5, 0 ≤ rec.enrol ∧ 0 ≤ rec.upd) ∧
    zScore ratSqrt exC5 "A" 5 = 0 := by
  have hpos : ∀ rec ∈ exC5, 0 ≤ rec.enrol ∧ 0 ≤ rec.upd := by
    intro rec hr
    simp only [exC5, List.mem_singleton] at hr
    subst hr
    exact ⟨by norm_num, by norm_num⟩
  refine ⟨hpos, (update_ratio_zscore ratSqrt exC5 hpos).2 "A" 5 ?_⟩
  intro a ha b hb
  rw [exC5_vols] at ha hb
  rw [List.mem_singleton] at ha hb
  rw [ha, hb]

end Aggregator

/-! ## Risk Scorer (`AadhaarRiskScorer.calculate_risk_scores`) -/

namespace Scorer

/-- One row of the scorer's input table (the anomaly-scored monthly
aggregates): `state` and `year_month`/`date` are always accessed by the
code; the metric columns may or may not exist in the frame (see `SCols`).
`mom_growth` is `none` on a region's first month (NaN, skipped by pandas
std).  `day` is the ordinal day number of the row's date. -/
structure SRow where
  state : String
  enrol_sum : ℚ
  is_anomaly : ℚ
  anomaly_score : ℚ
  mom_growth : Option ℚ
  updateRatioQ : ℚ
  ym : ℕ
  day : ℚ
deriving DecidableEq

/-- Which optional metric columns exist in the scorer's input frame
(`if col in state_data.columns` guards). -/
structure SCols where
  enrol_sum : Bool
  is_anomaly : Bool
  anomaly_score : Bool
  mom_growth : Bool
  updateRatioCol : Bool
deriving DecidableEq

/-- The six risk-component weights (`default_weights` merged with the
configured overrides). -/
structure Weights where
  volume : ℚ
  anomaly_frequency : ℚ
  anomaly_severity : ℚ
  volatility : ℚ
  consistency : ℚ
  update_pattern : ℚ
deriving DecidableEq

/-- The fixed default weight vector. -/
def defaultWeights : Weights := ⟨15/100, 25/100, 25/100, 15/100, 10/100, 10/100⟩

/-- `_normalize_score`: clip into the component range, then affine-rescale
into [0,1] (the `pd.isna` entry guard is vacuous here: every caller already
replaced NaN by 0, and the ranges are non-degenerate). -/
def normalizeScore (v lo hi : ℚ) : ℚ :=
  if hi - lo = 0 then 0 else (max lo (min v hi) - lo) / (hi - lo)

/-- `Series.std()` as a value: NaN — mapped to 0 by the callers'
`pd.isna` guards — when fewer than two values, else the square root of the
sample variance (parametric square-root function). -/
def stdQ (sqrtQ : ℚ → ℚ) (l : List ℚ) : ℚ :=
  if 2 ≤ l.length then sqrtQ (sampleVar l) else 0

/-- One `risk_entry` dict of `_calculate_risk_components`: a key is absent
(`none`) exactly when its guard did not run for this region.  After
`pd.DataFrame(risk_data)` a column exists iff some region has the key, and
`fillna(0)` turns the absent cells of existing columns into 0. -/
structure RiskEntry where
  state : String
  volume_risk : Option ℚ
  anomaly_frequency_risk : Option ℚ
  anomaly_severity_risk : Option ℚ
  volatility_risk : Option ℚ
  consistency_risk : Option ℚ
  update_pattern_risk : Option ℚ
deriving DecidableEq

/-- The distinct states in pandas groupby order. -/
def statesOfS (df : List SRow) : List String :=
  List.insertionSort (fun a b => strLeB a b) (df.map (fun r => r.state)).dedup

/-- The rows of one state group. -/
def groupS (df : List SRow) (s : String) : List SRow :=
  df.filter (fun r => r.state == s)

/-- The `risk_entry` of one state: volume risk (total volume clipped into
[0, 1e7]), anomaly-frequency risk (mean of `is_anomaly` in [0,1]),
anomaly-severity risk (mean score among flagged rows, 0 when none are
flagged, in [0,1]), volatility risk (std of `mom_growth` over non-NaN
values, NaN→0, clipped into [0, 0.5]), consistency risk
(1 − normalize(unique-months / (day-span/30)), only when the day span is
positive), and update-pattern risk (std of `update_ratio`, NaN→0, clipped
into [0, 0.3]). -/
def mkEntry (sqrtQ : ℚ → ℚ) (cols : SCols) (g : List SRow) (s : String) : RiskEntry :=
  ⟨s,
   if cols.enrol_sum then
     some (normalizeScore ((g.map (fun r => r.enrol_sum)).sum) 0 10000000)
   else none,
   if cols.is_anomaly then
     some (normalizeScore (meanQ (g.map (fun r => r.is_anomaly))) 0 1)
   else none,
   if cols.anomaly_score then
     some (normalizeScore
       (if (g.filter (fun r => r.is_anomaly == 1)).isEmpty then 0
        else meanQ ((g.filter (fun r => r.is_anomaly == 1)).map (fun r => r.anomaly_score)))
       0 1)
   else none,
   if cols.mom_growth then
     some (normalizeScore (stdQ sqrtQ (g.filterMap (fun r => r.mom_growth))) 0 (1/2))
   else none,
   if 0 < (listMax (g.map (fun r => r.day)) - listMin (g.map (fun r => r.day))) / 30 then
     some (1 - normalizeScore
       (((g.map (fun r => r.ym)).dedup.length : ℚ) /
         ((listMax (g.map (fun r => r.day)) - listMin (g.map (fun r => r.day))) / 30))
       0 1)
   else none,
   if cols.updateRatioCol then
     some (normalizeScore (stdQ sqrtQ (g.map (fun r => r.updateRatioQ))) 0 (3/10))
   else none⟩

/-- `_calculate_risk_components`: one entry per state, states in groupby
order. -/
def riskEntries (sqrtQ : ℚ → ℚ) (cols : SCols) (df : List SRow) : List RiskEntry :=
  (statesOfS df).map (fun s => mkEntry sqrtQ cols (groupS df s) s)

/-- Whether a component column exists in the risk DataFrame: some entry has
the key (`component in df.columns`). -/
def colPresent (es : List RiskEntry) (sel : RiskEntry → Option ℚ) : Bool :=
  es.any (fun e => (sel e).isSome)

/-- The `weights.items()` iteration of `_apply_weights`, in dict order. -/
def componentTable (w : Weights) : List ((RiskEntry → Option ℚ) × ℚ) :=
  [(fun e => e.volume_risk, w.volume),
   (fun e => e.anomaly_frequency_risk, w.anomaly_frequency),
   (fun e => e.anomaly_severity_risk, w.anomaly_severity),
   (fun e => e.volatility_risk, w.volatility),
   (fun e => e.consistency_risk, w.consistency),
   (fun e => e.update_pattern_risk, w.update_pattern)]

/-- The loop of `_apply_weights`: accumulate the weighted score and the
total weight over the components whose column exists in the batch; an
absent cell of an existing column was already `fillna(0)`-ed, hence
`getD 0`. -/
def applyWeightsAcc (w : Weights) (es : List RiskEntry) (e : RiskEntry) : ℚ × ℚ :=
  (componentTable w).foldl
    (fun acc cw =>
      if colPresent es cw.1 then (acc.1 + (cw.1 e).getD 0 * cw.2, acc.2 + cw.2) else acc)
    ((0 : ℚ), (0 : ℚ))

/-- `_apply_weights`: normalize by the total weight when positive. -/
def applyWeights (w : Weights) (es : List RiskEntry) (e : RiskEntry) : ℚ :=
  if 0 < (applyWeightsAcc w es e).2 then
    (applyWeightsAcc w es e).1 / (applyWeightsAcc w es e).2
  else (applyWeightsAcc w es e).1

/-- `_categorize_risk_level`. -/
def categorizeRiskLevel (sc : ℚ) : String :=
  if 8/10 ≤ sc then "CRITICAL"
  else if 6/10 ≤ sc then "HIGH"
  else if 4/10 ≤ sc then "MEDIUM"
  else if 2/10 ≤ sc then "LOW"
  else "VERY_LOW"

/-- One output row of the Risk Scorer. -/
structure Scored where
  entry : RiskEntry
  score : ℚ
  level : String
deriving DecidableEq

/-- The scored entries before the final ordering. -/
def scoredEntries (w : Weights) (sqrtQ : ℚ → ℚ) (cols : SCols) (df : List SRow) :
    List Scored :=
  (riskEntries sqrtQ cols df).map (fun e =>
    ⟨e, applyWeights w (riskEntries sqrtQ cols df) e,
      categorizeRiskLevel (applyWeights w (riskEntries sqrtQ cols df) e)⟩)

/-- `calculate_risk_scores`: components, weighted score, categorical level,
then `sort_values("risk_score", ascending=False)` (a stable descending
sort). -/
def calculateRiskScores (w : Weights) (sqrtQ : ℚ → ℚ) (cols : SCols) (df : List SRow) :
    List Scored :=
  List.insertionSort (fun a b => b.score ≤ a.score) (scoredEntries w sqrtQ cols df)

theorem mem_calculateRiskScores (w : Weights) (sqrtQ : ℚ → ℚ) (cols : SCols)
    (df : List SRow) (x : Scored) :
    x ∈ calculateRiskScores w sqrtQ cols df ↔ x ∈ scoredEntries w sqrtQ cols df :=
  (List.perm_insertionSort _ _).mem_iff

end Scorer

namespace Scorer

theorem applyWeightsAcc_closed (L : List ((RiskEntry → Option ℚ) × ℚ))
    (es : List RiskEntry) (e : RiskEntry) (a b : ℚ) :
    L.foldl
      (fun acc cw =>
        if colPresent es cw.1 then (acc.1 + (cw.1 e).getD 0 * cw.2, acc.2 + cw.2) else acc)
      (a, b) =
    (a + (L.map (fun cw => if colPresent es cw.1 then (cw.1 e).getD 0 * cw.2 else 0)).sum,
     b + (L.map (fun cw => if colPresent es cw.1 then cw.2 else 0)).sum) := by
  induction L generalizing a b with
  | nil => simp
  | cons cw T ih =>
      simp only [List.foldl_cons, List.map_cons, List.sum_cons]
      split_ifs with h
      · rw [ih]
        refine Prod.ext ?_ ?_ <;> dsimp <;> ring
      · rw [ih]
        refine Prod.ext ?_ ?_ <;> dsimp <;> ring

/-- Closed form of the batch-present weighted sum of `_apply_weights`: the
weighted component values of one entry, counting a component only when its
column exists somewhere in the batch, with per-entry missing values as 0. -/
def batchWeightedSum (w : Weights) (es : List RiskEntry) (e : RiskEntry) : ℚ :=
  (if colPresent es (fun x => x.volume_risk) then (e.volume_risk).getD 0 * w.volume else 0) +
  (if colPresent es (fun x => x.anomaly_frequency_risk) then
    (e.anomaly_frequency_risk).getD 0 * w.anomaly_frequency else 0) +
  (if colPresent es (fun x => x.anomaly_severity_risk) then
    (e.anomaly_severity_risk).getD 0 * w.anomaly_severity else 0) +
  (if colPresent es (fun x => x.volatility_risk) then
    (e.volatility_risk).getD 0 * w.volatility else 0) +
  (if colPresent es (fun x => x.consistency_risk) then
    (e.consistency_risk).getD 0 * w.consistency else 0) +
  (if colPresent es (fun x => x.update_pattern_risk) then
    (e.update_pattern_risk).getD 0 * w.update_pattern else 0)

/-- Closed form of the batch-present total weight of `_apply_weights`. -/
def batchWeightSum (w : Weights) (es : List RiskEntry) : ℚ :=
  (if colPresent es (fun x => x.volume_risk) then w.volume else 0) +
  (if colPresent es (fun x => x.anomaly_frequency_risk) then w.anomaly_frequency else 0) +
  (if colPresent es (fun x => x.anomaly_severity_risk) then w.anomaly_severity else 0) +
  (if colPresent es (fun x => x.volatility_risk) then w.volatility else 0) +
  (if colPresent es (fun x => x.consistency_risk) then w.consistency else 0) +
  (if colPresent es (fun x => x.update_pattern_risk) then w.update_pattern else 0)

theorem applyWeights_closed (w : Weights) (es : List RiskEntry) (e : RiskEntry) :
    applyWeights w es e =
      if 0 < batchWeightSum w es then batchWeightedSum w es e / batchWeightSum w es
      else batchWeightedSum w es e := by
  have hacc : applyWeightsAcc w es e = (batchWeightedSum w es e, batchWeightSum w es) := by
    unfold applyWeightsAcc
    rw [applyWeightsAcc_closed]
    unfold componentTable batchWeightedSum batchWeightSum
    simp only [List.map_cons, List.map_nil, List.sum_cons, List.sum_nil]
    refine Prod.ext ?_ ?_ <;> dsimp <;> ring
  rw [applyWeights, hacc]

/-- The risk score the claim describes: renormalization by the weights of
the components present for THIS region (its own non-missing keys), written
from the claim's words for comparison with the code's batch-presence
formula. -/
def specRegionScore (w : Weights) (e : RiskEntry) : ℚ :=
  ((if (e.volume_risk).isSome then (e.volume_risk).getD 0 * w.volume else 0) +
   (if (e.anomaly_frequency_risk).isSome then
     (e.anomaly_frequency_risk).getD 0 * w.anomaly_frequency else 0) +
   (if (e.anomaly_severity_risk).isSome then
     (e.anomaly_severity_risk).getD 0 * w.anomaly_severity else 0) +
   (if (e.volatility_risk).isSome then (e.volatility_risk).getD 0 * w.volatility else 0) +
   (if (e.consistency_risk).isSome then (e.consistency_risk).getD 0 * w.consistency else 0) +
   (if (e.update_pattern_risk).isSome then
     (e.update_pattern_risk).getD 0 * w.update_pattern else 0)) /
  ((if (e.volume_risk).isSome then w.volume else 0) +
   (if (e.anomaly_frequency_risk).isSome then w.anomaly_frequency else 0) +
   (if (e.anomaly_severity_risk).isSome then w.anomaly_severity else 0) +
   (if (e.volatility_risk).isSome then w.volatility else 0) +
   (if (e.consistency_risk).isSome then w.consistency else 0) +
   (if (e.update_pattern_risk).isSome then w.update_pattern else 0))

end Scorer

namespace Scorer

/-- All five optional metric columns present. -/
def allCols : SCols := ⟨true, true, true, true, true⟩

/-- A two-region batch: region A spans two months (days 0 and 60), so its
consistency component exists; region B has a single date, so its day span
is 0 and `_calculate_risk_components` never writes its `consistency_risk`
key — yet the column exists in the batch because of A. -/
def exDf : List SRow :=
  [⟨"A", 500000, 0, 0, none, 0, 0, 0⟩,
   ⟨"A", 500000, 0, 0, none, 0, 1, 60⟩,
   ⟨"B", 1000000, 1, 1/2, none, 0, 0, 0⟩]

/-- The computed risk entry of region A. -/
def entryA : RiskEntry := ⟨"A", some (1/10), some 0, some 0, some 0, some 0, some 0⟩

/-- The computed risk entry of region B (no consistency key). -/
def entryB : RiskEntry := ⟨"B", some (1/10), some 1, some (1/2), some 0, none, some 0⟩

theorem exDf_states : statesOfS exDf = ["A", "B"] := by decide

theorem exDf_groupA : groupS exDf "A" =
    [⟨"A", 500000, 0, 0, none, 0, 0, 0⟩, ⟨"A", 500000, 0, 0, none, 0, 1, 60⟩] := by
  simp [groupS, exDf]

theorem exDf_groupB : groupS exDf "B" = [⟨"B", 1000000, 1, 1/2, none, 0, 0, 0⟩] := by
  simp [groupS, exDf]

theorem exDf_entryA : mkEntry ratSqrt allCols (groupS exDf "A") "A" = entryA := by
  rw [exDf_groupA]
  unfold mkEntry entryA allCols
  norm_num [normalizeScore, stdQ, sampleVar, sqDevSum, meanQ, ratSqrt,
    listMin, listMax, List.sum]

theorem exDf_entryB : mkEntry ratSqrt allCols (groupS exDf "B") "B" = entryB := by
  rw [exDf_groupB]
  unfold mkEntry entryB allCols
  norm_num [normalizeScore, stdQ, sampleVar, sqDevSum, meanQ, ratSqrt,
    listMin, listMax, List.sum]

theorem exDf_entries : riskEntries ratSqrt allCols exDf = [entryA, entryB] := by
  rw [riskEntries, exDf_states]
  simp only [List.map_cons, List.map_nil]
  rw [exDf_entryA, exDf_entryB]

theorem exDf_scoreA : applyWeights defaultWeights [entryA, entryB] entryA = 3/200 := by
  rw [applyWeights_closed]
  norm_num [batchWeightedSum, batchWeightSum, colPresent, defaultWeights, entryA, entryB]

theorem exDf_scoreB : applyWeights defaultWeights [entryA, entryB] entryB = 39/100 := by
  rw [applyWeights_closed]
  norm_num [batchWeightedSum, batchWeightSum, colPresent, defaultWeights, entryA, entryB]

theorem exDf_scored : scoredEntries defaultWeights ratSqrt allCols exDf =
    [⟨entryA, 3/200, "VERY_LOW"⟩, ⟨entryB, 39/100, "LOW"⟩] := by
  rw [scoredEntries, exDf_entries]
  simp only [List.map_cons, List.map_nil]
  rw [exDf_scoreA, exDf_scoreB]
  norm_num [categorizeRiskLevel]

end Scorer

namespace Scorer

/-- Counterexample to C1 as stated: renormalization is by the weights of
the components whose COLUMN exists in the batch, not of the components
present for the individual region.  Region B has no consistency component
(single date), yet its risk score is 39/100 — the batch formula with total
weight 1 — whereas the claimed per-region renormalization (total weight
9/10 over B's own components) yields 13/30. -/
theorem risk_renormalization_counterexample :
    (∀ x ∈ calculateRiskScores defaultWeights ratSqrt allCols exDf,
      x.entry.state = "B" → x.score = 39/100) ∧
    (⟨entryB, 39/100, "LOW"⟩ : Scored) ∈
      calculateRiskScores defaultWeights ratSqrt allCols exDf ∧
    (mkEntry ratSqrt allCols (groupS exDf "B") "B").consistency_risk = none ∧
    specRegionScore defaultWeights (mkEntry ratSqrt allCols (groupS exDf "B") "B") = 13/30 ∧
    (39/100 : ℚ) ≠ 13/30 := by
  refine ⟨?_, ?_, ?_, ?_, by norm_num⟩
  · intro x hx hB
    rw [mem_calculateRiskScores, exDf_scored] at hx
    rcases List.mem_cons.mp hx with rfl | hx
    · exact absurd hB (by decide)
    · rcases List.mem_cons.mp hx with rfl | hx
      · rfl
      · cases hx
  · rw [mem_calculateRiskScores, exDf_scored]
    exact List.mem_cons_of_mem _ (List.mem_cons_self _ _)
  · rw [exDf_entryB]
    rfl
  · rw [exDf_entryB]
    norm_num [specRegionScore, defaultWeights, entryB]

/-- C1 (amended): every output row's risk score is the weighted sum of the
row's six component values — a component counted exactly when its column
exists somewhere in the batch, with a per-region-missing value filled as
0 — divided by the summed weights of the batch-present components (no
division when that total is not positive).  A component column absent from
the whole batch is excluded from numerator and denominator alike. -/
theorem risk_score_batch_renormalization (w : Weights) (sqrtQ : ℚ → ℚ) (cols : SCols)
    (df : List SRow) (x : Scored) (hx : x ∈ calculateRiskScores w sqrtQ cols df) :
    x.score =
      if 0 < batchWeightSum w (riskEntries sqrtQ cols df) then
        batchWeightedSum w (riskEntries sqrtQ cols df) x.entry /
          batchWeightSum w (riskEntries sqrtQ cols df)
      else batchWeightedSum w (riskEntries sqrtQ cols df) x.entry := by
  rw [mem_calculateRiskScores] at hx
  obtain ⟨e, -, rfl⟩ := List.mem_map.mp hx
  exact applyWeights_closed w _ e

/-- Witness for C1 (amended) at the concrete batch: region B's score equals
the batch formula value 39/100. -/
theorem risk_score_batch_renormalization_witness :
    (⟨entryB, 39/100, "LOW"⟩ : Scored) ∈
      calculateRiskScores defaultWeights ratSqrt allCols exDf ∧
    (39/100 : ℚ) =
      if 0 < batchWeightSum defaultWeights (riskEntries ratSqrt allCols exDf) then
        batchWeightedSum defaultWeights (riskEntries ratSqrt allCols exDf) entryB /
          batchWeightSum defaultWeights (riskEntries ratSqrt allCols exDf)
      else batchWeightedSum defaultWeights (riskEntries ratSqrt allCols exDf) entryB := by
  have hmem : (⟨entryB, 39/100, "LOW"⟩ : Scored) ∈
      calculateRiskScores defaultWeights ratSqrt allCols exDf := by
    rw [mem_calculateRiskScores, exDf_scored]
    exact List.mem_cons_of_mem _ (List.mem_cons_self _ _)
  exact ⟨hmem,
    risk_score_batch_renormalization defaultWeights ratSqrt allCols exDf _ hmem⟩

end Scorer

namespace Scorer

theorem normalizeScore_bounds (v lo hi : ℚ) (h : lo < hi) :
    0 ≤ normalizeScore v lo hi ∧ normalizeScore v lo hi ≤ 1 := by
  unfold normalizeScore
  rw [if_neg (by linarith)]
  have hc1 : lo ≤ max lo (min v hi) := le_max_left _ _
  have hc2 : max lo (min v hi) ≤ hi := max_le h.le (min_le_right _ _)
  constructor
  · exact div_nonneg (by linarith) (by linarith)
  · rw [div_le_one (by linarith)]
    linarith

theorem one_sub_normalizeScore_bounds (v lo hi : ℚ) (h : lo < hi) :
    0 ≤ 1 - normalizeScore v lo hi ∧ 1 - normalizeScore v lo hi ≤ 1 := by
  obtain ⟨h0, h1⟩ := normalizeScore_bounds v lo hi h
  exact ⟨by linarith, by linarith⟩

/-- An optional component value bounded into [0,1] when present. -/
def OptBounded (o : Option ℚ) : Prop := ∀ v, o = some v → 0 ≤ v ∧ v ≤ 1

theorem OptBounded.getD_bounds {o : Option ℚ} (h : OptBounded o) :
    0 ≤ o.getD 0 ∧ o.getD 0 ≤ 1 := by
  cases o with
  | none => simp
  | some v => simpa using h v rfl

theorem mkEntry_bounded (sqrtQ : ℚ → ℚ) (cols : SCols) (g : List SRow) (s : String) :
    OptBounded (mkEntry sqrtQ cols g s).volume_risk ∧
    OptBounded (mkEntry sqrtQ cols g s).anomaly_frequency_risk ∧
    OptBounded (mkEntry sqrtQ cols g s).anomaly_severity_risk ∧
    OptBounded (mkEntry sqrtQ cols g s).volatility_risk ∧
    OptBounded (mkEntry sqrtQ cols g s).consistency_risk ∧
    OptBounded (mkEntry sqrtQ cols g s).update_pattern_risk := by
  unfold OptBounded
  refine ⟨?_, ?_, ?_, ?_, ?_, ?_⟩ <;> intro v hv <;> simp only [mkEntry] at hv <;>
    split_ifs at hv
  · obtain rfl := (Option.some.inj hv).symm
    exact normalizeScore_bounds _ 0 10000000 (by norm_num)
  · obtain rfl := (Option.some.inj hv).symm
    exact normalizeScore_bounds _ 0 1 (by norm_num)
  · obtain rfl := (Option.some.inj hv).symm
    exact normalizeScore_bounds _ 0 1 (by norm_num)
  · obtain rfl := (Option.some.inj hv).symm
    exact normalizeScore_bounds _ 0 1 (by norm_num)
  · obtain rfl := (Option.some.inj hv).symm
    exact normalizeScore_bounds _ 0 (1/2) (by norm_num)
  · obtain rfl := (Option.some.inj hv).symm
    exact one_sub_normalizeScore_bounds _ 0 1 (by norm_num)
  · obtain rfl := (Option.some.inj hv).symm
    exact normalizeScore_bounds _ 0 (3/10) (by norm_num)

theorem entry_mem_riskEntries_bounded (sqrtQ : ℚ → ℚ) (cols : SCols) (df : List SRow)
    (e : RiskEntry) (he : e ∈ riskEntries sqrtQ cols df) :
    OptBounded e.volume_risk ∧ OptBounded e.anomaly_frequency_risk ∧
    OptBounded e.anomaly_severity_risk ∧ OptBounded e.volatility_risk ∧
    OptBounded e.consistency_risk ∧ OptBounded e.update_pattern_risk := by
  obtain ⟨s, -, rfl⟩ := List.mem_map.mp he
  exact mkEntry_bounded sqrtQ cols (groupS df s) s

theorem weighted_term_bounds (p : Bool) (o : Option ℚ) (wt : ℚ) (hw : 0 ≤ wt)
    (hb : OptBounded o) :
    0 ≤ (if p then o.getD 0 * wt else 0) ∧
    (if p then o.getD 0 * wt else 0) ≤ (if p then wt else 0) := by
  obtain ⟨h0, h1⟩ := hb.getD_bounds
  cases p
  · simp
  · simp only [if_true]
    exact ⟨mul_nonneg h0 hw, mul_le_of_le_one_left hw h1⟩

/-- C2: every output row of the Risk Scorer (under non-negative component
weights — the defaults and any non-negative overrides) has
`risk_score ∈ [0,1]` and carries the level categorized from that score;
and the categorization is exhaustive and mutually exclusive: a score maps
to CRITICAL iff it is ≥ 0.8, to HIGH iff in [0.6, 0.8), to MEDIUM iff in
[0.4, 0.6), to LOW iff in [0.2, 0.4), and to VERY_LOW iff < 0.2, so every
score in [0,1] maps to exactly one level. -/
theorem risk_score_bounds_and_levels :
    (∀ (w : Weights) (sqrtQ : ℚ → ℚ) (cols : SCols) (df : List SRow),
      0 ≤ w.volume → 0 ≤ w.anomaly_frequency → 0 ≤ w.anomaly_severity →
      0 ≤ w.volatility → 0 ≤ w.consistency → 0 ≤ w.update_pattern →
      ∀ x ∈ calculateRiskScores w sqrtQ cols df,
        0 ≤ x.score ∧ x.score ≤ 1 ∧ x.level = categorizeRiskLevel x.score) ∧
    (∀ sc : ℚ,
      (categorizeRiskLevel sc = "CRITICAL" ↔ 8/10 ≤ sc) ∧
      (categorizeRiskLevel sc = "HIGH" ↔ 6/10 ≤ sc ∧ sc < 8/10) ∧
      (categorizeRiskLevel sc = "MEDIUM" ↔ 4/10 ≤ sc ∧ sc < 6/10) ∧
      (categorizeRiskLevel sc = "LOW" ↔ 2/10 ≤ sc ∧ sc < 4/10) ∧
      (categorizeRiskLevel sc = "VERY_LOW" ↔ sc < 2/10)) := by
  constructor
  · intro w sqrtQ cols df hw1 hw2 hw3 hw4 hw5 hw6 x hx
    rw [mem_calculateRiskScores] at hx
    obtain ⟨e, he, rfl⟩ := List.mem_map.mp hx
    obtain ⟨hb1, hb2, hb3, hb4, hb5, hb6⟩ :=
      entry_mem_riskEntries_bounded sqrtQ cols df e he
    have ht1 := weighted_term_bounds
      (colPresent (riskEntries sqrtQ cols df) (fun x => x.volume_risk))
      e.volume_risk w.volume hw1 hb1
    have ht2 := weighted_term_bounds
      (colPresent (riskEntries sqrtQ cols df) (fun x => x.anomaly_frequency_risk))
      e.anomaly_frequency_risk w.anomaly_frequency hw2 hb2
    have ht3 := weighted_term_bounds
      (colPresent (riskEntries sqrtQ cols df) (fun x => x.anomaly_severity_risk))
      e.anomaly_severity_risk w.anomaly_severity hw3 hb3
    have ht4 := weighted_term_bounds
      (colPresent (riskEntries sqrtQ cols df) (fun x => x.volatility_risk))
      e.volatility_risk w.volatility hw4 hb4
    have ht5 := weighted_term_bounds
      (colPresent (riskEntries sqrtQ cols df) (fun x => x.consistency_risk))
      e.consistency_risk w.consistency hw5 hb5
    have ht6 := weighted_term_bounds
      (colPresent (riskEntries sqrtQ cols df) (fun x => x.update_pattern_risk))
      e.update_pattern_risk w.update_pattern hw6 hb6
    have hN : 0 ≤ batchWeightedSum w (riskEntries sqrtQ cols df) e := by
      unfold batchWeightedSum
      linarith [ht1.1, ht2.1, ht3.1, ht4.1, ht5.1, ht6.1]
    have hNW : batchWeightedSum w (riskEntries sqrtQ cols df) e ≤
        batchWeightSum w (riskEntries sqrtQ cols df) := by
      unfold batchWeightedSum batchWeightSum
      linarith [ht1.2, ht2.2, ht3.2, ht4.2, ht5.2, ht6.2]
    have hbounds : 0 ≤ applyWeights w (riskEntries sqrtQ cols df) e ∧
        applyWeights w (riskEntries sqrtQ cols df) e ≤ 1 := by
      rw [applyWeights_closed w _ e]
      split_ifs with hpos
      · constructor
        · exact div_nonneg hN hpos.le
        · rw [div_le_one hpos]
          exact hNW
      · have hW0 := le_of_not_lt hpos
        exact ⟨hN, by linarith⟩
    exact ⟨hbounds.1, hbounds.2, rfl⟩
  · intro sc
    unfold categorizeRiskLevel
    split_ifs with h1 h2 h3 h4 <;>
      refine ⟨?_, ?_, ?_, ?_, ?_⟩ <;> simp <;>
        first
          | linarith
          | (intros; linarith)
          | (constructor <;> linarith)

end Scorer

namespace Scorer

/-- Witness for C2 at the concrete batch: region B's output row has score
39/100 ∈ [0,1] with level LOW, and the characterization instantiates at the
score 1/2 (MEDIUM). -/
theorem risk_score_bounds_and_levels_witness :
    (⟨entryB, 39/100, "LOW"⟩ : Scored) ∈
      calculateRiskScores defaultWeights ratSqrt allCols exDf ∧
    (0 ≤ (39/100 : ℚ) ∧ (39/100 : ℚ) ≤ 1 ∧
      ("LOW" : String) = categorizeRiskLevel (39/100)) ∧
    (categorizeRiskLevel (1/2) = "MEDIUM" ↔ 4/10 ≤ (1/2 : ℚ) ∧ (1/2 : ℚ) < 6/10) := by
  have hmem : (⟨entryB, 39/100, "LOW"⟩ : Scored) ∈
      calculateRiskScores defaultWeights ratSqrt allCols exDf := by
    rw [mem_calculateRiskScores, exDf_scored]
    exact List.mem_cons_of_mem _ (List.mem_cons_self _ _)
  refine ⟨hmem, ?_, (risk_score_bounds_and_levels.2 (1/2)).2.2.1⟩
  exact risk_score_bounds_and_levels.1 defaultWeights ratSqrt allCols exDf
    (by norm_num [defaultWeights]) (by norm_num [defaultWeights])
    (by norm_num [defaultWeights]) (by norm_num [defaultWeights])
    (by norm_num [defaultWeights]) (by norm_num [defaultWeights])
    ⟨entryB, 39/100, "LOW"⟩ hmem

/-- C7: for every output row whose region has no flagged anomaly
(`is_anomaly = 1` on none of its input rows) while the `anomaly_score`
column exists, the computed `anomaly_severity_risk` is exactly 0 (present,
not missing, and not NaN): the mean anomaly score among flagged rows is
defined as 0 when no row is flagged. -/
theorem zero_flagged_severity_zero (w : Weights) (sqrtQ : ℚ → ℚ) (cols : SCols)
    (df : List SRow) (x : Scored)
    (hx : x ∈ calculateRiskScores w sqrtQ cols df)
    (hcol : cols.anomaly_score = true)
    (hnone : ∀ r ∈ df, r.state = x.entry.state → r.is_anomaly ≠ 1) :
    x.entry.anomaly_severity_risk = some 0 := by
  rw [mem_calculateRiskScores] at hx
  obtain ⟨e, he, rfl⟩ := List.mem_map.mp hx
  obtain ⟨s, -, rfl⟩ := List.mem_map.mp he
  have hflag : (groupS df s).filter (fun r => r.is_anomaly == 1) = [] := by
    apply List.filter_eq_nil_iff.mpr
    intro r hr
    have hrdf := (List.mem_filter.mp hr).1
    have hrs : r.state = s := by
      have := (List.mem_filter.mp hr).2
      simpa using this
    have hne := hnone r hrdf hrs
    simp [hne]
  show (mkEntry sqrtQ cols (groupS df s) s).anomaly_severity_risk = some 0
  simp only [mkEntry]
  rw [hcol, if_pos rfl, hflag]
  norm_num [normalizeScore]

/-- Witness for C7 at the concrete batch: region A has no flagged rows and
its severity component is `some 0`. -/
theorem zero_flagged_severity_zero_witness :
    (⟨entryA, 3/200, "VERY_LOW"⟩ : Scored) ∈
      calculateRiskScores defaultWeights ratSqrt allCols exDf ∧
    entryA.anomaly_severity_risk = some 0 := by
  have hmem : (⟨entryA, 3/200, "VERY_LOW"⟩ : Scored) ∈
      calculateRiskScores defaultWeights ratSqrt allCols exDf := by
    rw [mem_calculateRiskScores, exDf_scored]
    exact List.mem_cons_self _ _
  refine ⟨hmem, ?_⟩
  have h := zero_flagged_severity_zero defaultWeights ratSqrt allCols exDf
    ⟨entryA, 3/200, "VERY_LOW"⟩ hmem rfl ?_
  · exact h
  · intro r hr hs
    simp only [exDf, List.mem_cons, List.mem_singleton, List.not_mem_nil, or_false] at hr
    rcases hr with rfl | rfl | rfl <;> first
      | (exact absurd hs (by decide))
      | norm_num

end Scorer

/-! ## Schema Normalizer (`UniversalDataProcessor.auto_detect_schema`) -/

namespace Schema

/-- A cell of an untyped input column: NaN/None, a string, or a number. -/
inductive Cell
  | null
  | str (s : String)
  | num (q : ℚ)
deriving DecidableEq

def Cell.isNull : Cell → Bool
  | .null => true
  | _ => false

/-- One input column: its original name and its values. -/
structure Col where
  name : String
  values : List Cell
deriving DecidableEq

/-- Lower-casing, character-wise (`re.IGNORECASE` / `str.lower()`). -/
def toLowerStr (s : String) : String := (s.toList.map Char.toLower).asString

/-- Substring containment of character lists. -/
def containsSub (n : List Char) : List Char → Bool
  | [] => n.isEmpty
  | c :: t => n.isPrefixOf (c :: t) || containsSub n t

/-- `re.search(pattern, col, re.IGNORECASE)` for the literal patterns of the
table: case-insensitive substring match (`re.match(^p$)` exact matches are
subsumed by the substring matches the code unions them with). -/
def nameMatches (pattern colName : String) : Bool :=
  containsSub (toLowerStr pattern).toList (toLowerStr colName).toList

/-- `self.column_patterns`: the ordered canonical fields with their ordered
candidate name patterns (`age_60\+` is the escaped literal `age_60+`). -/
def columnPatterns : List (String × List String) :=
  [("date", ["date", "Date", "DATE", "timestamp", "Timestamp",
    "enrolment_date", "enrollment_date", "time", "Time"]),
   ("state", ["state", "State", "STATE", "state_name", "State_Name",
    "STATE_NAME", "region", "Region", "location"]),
   ("district", ["district", "District", "DISTRICT", "district_name",
    "district_name", "area", "Area", "zone", "Zone"]),
   ("pincode", ["pincode", "Pincode", "PINCODE", "pin", "Pin", "PIN",
    "postal_code", "postal", "zip", "Zip"]),
   ("enrolment_count", ["enrolment", "Enrolment", "enrollment", "Enrollment",
    "enrolments", "enrollments", "count", "Count", "total",
    "volume", "Volume", "number", "Number"]),
   ("update_count", ["update", "Update", "updates", "Updates", "modification",
    "Modification", "change", "Change", "correction"]),
   ("age_0_18", ["age_0_18", "age0_18", "age_0_to_18", "0_18", "under_18",
    "minor", "Minor", "children", "Children"]),
   ("age_19_40", ["age_19_40", "age19_40", "age_19_to_40", "19_40",
    "adult", "Adult", "young_adult", "young"]),
   ("age_41_60", ["age_41_60", "age41_60", "age_41_to_60", "41_60",
    "middle_age", "middle", "mid_age"]),
   ("age_60_plus", ["age_60_plus", "age60_plus", "age_60+", "60_plus",
    "senior", "Senior", "elderly", "Elderly", "old"])]

/-- Lookup of an original column in the mapping dict. -/
def lookupM (m : List (String × String)) (k : String) : Option String :=
  (m.find? (fun p => p.1 == k)).map (fun p => p.2)

/-- `standard in column_mapping.values()`. -/
def hasValueM (m : List (String × String)) (v : String) : Bool :=
  m.any (fun p => p.2 == v)

/-- `column_mapping[original] = standard`: dict insert-or-replace, keeping
the original insertion position on replacement. -/
def setM (m : List (String × String)) (k v : String) : List (String × String) :=
  if m.any (fun p => p.1 == k) then
    m.map (fun p => if p.1 == k then (k, v) else p)
  else m ++ [(k, v)]

/-- The first pattern (in order) with any matching column, resolved to a
matching column: `all_matches[0]` of the code reads an element out of a
Python set whose order is unspecified; the embedding fixes the
deterministic choice of the first matching column in frame order, which
coincides with the code whenever a single column matches, as in every
scenario settled here. -/
def firstMatch (cols : List Col) : List String → Option String
  | [] => none
  | p :: ps =>
      match cols.find? (fun c => nameMatches p c.name) with
      | some c => some c.name
      | none => firstMatch cols ps

/-- Phase 1: name-pattern matching over the canonical fields in order (the
`break` after a hit means one assignment per standard field). -/
def phase1 (cols : List Col) : List (String × String) :=
  columnPatterns.foldl (fun m sp =>
    match firstMatch cols sp.2 with
    | some n => setM m n sp.1
    | none => m) []

/-- Two-digit value of two digit characters. -/
def twoDigits (a b : Char) : ℕ := (a.toNat - 48) * 10 + (b.toNat - 48)

/-- ISO `yyyy-mm-dd` shape with a plausible month and day. -/
def isIsoDate (s : String) : Bool :=
  match s.toList with
  | [y1, y2, y3, y4, d1, m1, m2, d2, a1, a2] =>
      y1.isDigit && y2.isDigit && y3.isDigit && y4.isDigit && d1 == '-' &&
      m1.isDigit && m2.isDigit && d2 == '-' && a1.isDigit && a2.isDigit &&
      decide (1 ≤ twoDigits m1 m2) && decide (twoDigits m1 m2 ≤ 12) &&
      decide (1 ≤ twoDigits a1 a2) && decide (twoDigits a1 a2 ≤ 31)
  | _ => false

/-- Whether `pd.to_datetime(v, errors="raise")` succeeds on one sampled
value, modelled on the fragment the claims exercise: ISO date strings parse
(pandas accepts them), numeric values parse (pandas reads them as epoch
offsets), other strings raise. -/
def parsesAsDate : Cell → Bool
  | .null => false
  | .str s => isIsoDate s
  | .num _ => true

/-- Phase 2: value-based date detection — for each still-unmapped column,
sample up to 10 non-null values; if the sample is non-empty and parses
entirely as dates and `date` is not yet an assigned standard, assign the
column to `date`. -/
def phase2 (cols : List Col) (m0 : List (String × String)) : List (String × String) :=
  cols.foldl (fun m c =>
    if (lookupM m c.name).isSome then m
    else
      if !((c.values.filter (fun v => !v.isNull)).take 10).isEmpty &&
         ((c.values.filter (fun v => !v.isNull)).take 10).all parsesAsDate &&
         !hasValueM m "date" then
        setM m c.name "date"
      else m) m0

/-- Numeric dtype: every cell is a number or NaN (an all-null column is
float dtype, hence numeric). -/
def isNumericCol (c : Col) : Bool :=
  c.values.all (fun v => match v with
    | .str _ => false
    | _ => true)

/-- The count-like name keywords of the numeric fallback. -/
def countKeywords : List String := ["total", "count", "sum", "number"]

/-- Phase 3: numeric count-column fallback — an unmapped numeric column
whose lowered name contains a count keyword becomes `enrolment_count` when
none was assigned yet. -/
def phase3 (cols : List Col) (m0 : List (String × String)) : List (String × String) :=
  cols.foldl (fun m c =>
    if isNumericCol c && (lookupM m c.name).isNone &&
       countKeywords.any (fun k => containsSub k.toList (toLowerStr c.name).toList) &&
       !hasValueM m "enrolment_count" then
      setM m c.name "enrolment_count"
    else m) m0

/-- `auto_detect_schema`: the column mapping after the three phases. -/
def autoDetectSchema (cols : List Col) : List (String × String) :=
  phase3 cols (phase2 cols (phase1 cols))

/-- A table with a column literally named Total_Enrolments. -/
def exSchemaA : List Col :=
  [⟨"State", [Cell.str "Goa"]⟩, ⟨"Total_Enrolments", [Cell.num 120]⟩]

/-- A table with no date-like column name but one column of ISO date
strings. -/
def exSchemaB : List Col :=
  [⟨"region_name", [Cell.str "North"]⟩,
   ⟨"obs", [Cell.str "2023-01-15", Cell.str "2023-02-15"]⟩]

/-- C9: the Schema Normalizer maps a column literally named
`Total_Enrolments` to the canonical volume-count field `enrolment_count`
(substring match on its enrol keyword), and, when no column name matches a
date pattern but a column holds ISO date strings, the value-based fallback
(sampling up to 10 non-null values and testing date parsing) assigns that
column to `date`. -/
theorem auto_detect_scenarios :
    lookupM (autoDetectSchema exSchemaA) "Total_Enrolments" = some "enrolment_count" ∧
    lookupM (autoDetectSchema exSchemaB) "obs" = some "date" := by
  constructor <;> decide

end Schema
